import Mathlib

/-!
# backlogslackify

A shallow embedding of `backlogslackify.go` (package `backlogslackify`), with
what is proved about it.

The Go standard library (`time`, `strconv`, `strings`, `fmt`) and the two
network collaborators (the Backlog client and the Slack webhook) are not part
of the package.  The library calls the package makes are embedded here with
their documented Go semantics; the collaborators are an environment whose
answers may depend on everything that happened before.
-/

namespace Backlogslackify

/-! ## Machine integers and `time` -/

/-- Two's complement wrap-around of a signed 64-bit integer (Go `int`,
`int64` and `time.Duration` arithmetic on a 64-bit platform). -/
def wrap64 (x : Int) : Int := (x + 9223372036854775808) % 18446744073709551616 - 9223372036854775808

/-- Multiplication of two 64-bit signed integers as Go performs it. -/
def mul64 (a b : Int) : Int := wrap64 (a * b)

/-- Subtraction of two 64-bit signed integers as Go performs it. -/
def sub64 (a b : Int) : Int := wrap64 (a - b)

/-- The constant `time.Hour`, in nanoseconds. -/
def Hour : Int := 3600000000000

/-- Nanoseconds in one second. -/
def nsPerSecond : Int := 1000000000

/-- Nanoseconds in one day of 24 hours. -/
def nsPerDay : Int := 86400000000000

/-- Days from 0001-01-01 to 1970-01-01 in the proleptic Gregorian calendar. -/
def unixEpochDay : Int := 719162

/-- A `time.Time`: an instant (nanoseconds since the Unix epoch) shown in a
zone that lies `offset` seconds east of UTC; `time.UTC` is offset `0`.  The
monotonic clock reading and the end of the 64-bit second counter (some
292 billion years away) are left out. -/
structure Time where
  unixNano : Int
  offset : Int
deriving DecidableEq, Repr

/-- Nanoseconds since 0001-01-01 00:00:00 read on the wall clock of the zone
of `t` (what `Time.abs` computes in seconds, plus the nanosecond field). -/
def Time.wall (t : Time) : Int :=
  t.unixNano + t.offset * nsPerSecond + unixEpochDay * nsPerDay

/-- Whole days since 0001-01-01 on the wall clock of `t`. -/
def Time.absDays (t : Time) : Int := t.wall / nsPerDay

/-- The method `Time.Weekday`: 0 is Sunday and 6 is Saturday; 0001-01-01 is a
Monday. -/
def Time.Weekday (t : Time) : Int := (t.absDays + 1) % 7

/-- The method `Time.Add`. -/
def Time.Add (t : Time) (d : Int) : Time := { t with unixNano := t.unixNano + d }

/-- The function `isLeap` of package `time`. -/
def isLeap (year : Int) : Bool := year % 4 == 0 && (year % 100 != 0 || year % 400 == 0)

/-- The table `daysBefore` of package `time`: `daysBefore m` is the number of
days of a non-leap year before month `m + 1`. -/
def daysBefore (m : Int) : Int :=
  if m ≤ 0 then 0 else if m = 1 then 31 else if m = 2 then 59 else if m = 3 then 90
  else if m = 4 then 120 else if m = 5 then 151 else if m = 6 then 181
  else if m = 7 then 212 else if m = 8 then 243 else if m = 9 then 273
  else if m = 10 then 304 else if m = 11 then 334 else 365

/-- The function `daysSinceEpoch` of package `time`, counted from year 1
(which, like Go's absolute zero year, is 1 modulo 400). -/
def daysSinceEpoch (year : Int) : Int :=
  let y := year - 1
  let n400 := y / 400
  let y1 := y - 400 * n400
  let n100 := y1 / 100
  let y2 := y1 - 100 * n100
  let n4 := y2 / 4
  let y3 := y2 - 4 * n4
  146097 * n400 + 36524 * n100 + 1461 * n4 + 365 * y3

/-- A calendar date with the day of the year (counted from 0), as returned by
`absDate`. -/
structure CivilDate where
  year : Int
  month : Int
  day : Int
  yday : Int
deriving DecidableEq, Repr

/-- The function `absDate` of package `time`, applied to a count of days since
0001-01-01. -/
def absDate (days : Int) : CivilDate :=
  let n400 := days / 146097
  let d1 := days - 146097 * n400
  let n100 := d1 / 36524
  let n100 := n100 - n100 / 4
  let d2 := d1 - 36524 * n100
  let n4 := d2 / 1461
  let d3 := d2 - 1461 * n4
  let n1 := d3 / 365
  let n1 := n1 - n1 / 4
  let yday := d3 - 365 * n1
  let year := 400 * n400 + 100 * n100 + 4 * n4 + n1 + 1
  if isLeap year && yday == 59 then
    { year := year, month := 2, day := 29, yday := yday }
  else
    let day := if isLeap year && yday > 59 then yday - 1 else yday
    let month := day / 31
    let stop := daysBefore (month + 1)
    if day ≥ stop then
      { year := year, month := month + 2, day := day - stop + 1, yday := yday }
    else
      { year := year, month := month + 1, day := day - daysBefore month + 1, yday := yday }

/-- The method `Time.Date` (year, month, day) together with `Time.YearDay`. -/
def Time.civil (t : Time) : CivilDate := absDate t.absDays

/-- The method `Time.Year`. -/
def Time.Year (t : Time) : Int := t.civil.year

/-- The method `Time.Month`: January is 1. -/
def Time.Month (t : Time) : Int := t.civil.month

/-- The method `Time.Day`. -/
def Time.Day (t : Time) : Int := t.civil.day

/-- Nanoseconds since midnight on the wall clock of `t`. -/
def Time.nsOfDay (t : Time) : Int := t.wall % nsPerDay

/-- The function `time.Date` for a zone of fixed offset: the month is
normalised into the year, the day is not normalised but counted from the
first of the month, and hours, minutes, seconds and nanoseconds are carried
into the day (a carry keeps their sum, which is all that is used here). -/
def Date (year month day hour min sec nsec offset : Int) : Time :=
  let m := month - 1
  let year := year + m / 12
  let m := m % 12
  let d := daysSinceEpoch year + daysBefore m
  let d := if isLeap year && m + 1 ≥ 3 then d + 1 else d
  let d := d + (day - 1)
  { unixNano := (d - unixEpochDay) * nsPerDay + hour * Hour + min * 60000000000
        + sec * nsPerSecond + nsec - offset * nsPerSecond,
    offset := offset }

/-- The method `Time.AddDate`: the date and clock of `t` are read, the
arguments are added to year, month and day, and `time.Date` puts the result
together again in the zone of `t`. -/
def Time.AddDate (t : Time) (years months days : Int) : Time :=
  let c := t.civil
  let hour := t.nsOfDay / Hour
  let min := t.nsOfDay % Hour / 60000000000
  let sec := t.nsOfDay % 60000000000 / nsPerSecond
  let nsec := t.nsOfDay % nsPerSecond
  Date (c.year + years) (c.month + months) (c.day + days) hour min sec nsec t.offset

/-- The helper `appendInt` of package `time`: the decimal digits of `x`, with
a leading minus sign when `x` is negative, padded with zeros to `width`
digits. -/
def appendInt (x : Int) (width : Nat) : String :=
  let ds := Nat.toDigits 10 x.natAbs
  let body := String.mk (List.replicate (width - ds.length) '0' ++ ds)
  if x < 0 then "-" ++ body else body

/-- The layout `"2006-01-02"` applied to a calendar date: the year in at least
four digits, the month and the day in two. -/
def formatDate (c : CivilDate) : String :=
  appendInt c.year 4 ++ "-" ++ appendInt c.month 2 ++ "-" ++ appendInt c.day 2

/-- The method `Time.Format` with the layout `"2006-01-02"`, the only layout
the package uses. -/
def Time.Format (t : Time) : String := formatDate t.civil

/-- The function `time.Date` with `time.UTC` at midnight, for writing down
reference times. -/
def utc (year month day : Int) : Time := Date year month day 0 0 0 0 0

/-! ## `strconv.Atoi` -/

/-- Value of a string of decimal digits. -/
def digitsValue (cs : List Char) : Nat := cs.foldl (fun n c => n * 10 + (c.toNat - 48)) 0

/-- The function `strconv.Atoi` on a 64-bit platform: an optional sign, then
one or more decimal digits and nothing else, and the value must fit `int`;
`none` stands for a returned error (syntax or range). -/
def Atoi (s : String) : Option Int :=
  let cs := s.data
  let neg := cs.head? == some '-'
  let ds := if cs.head? == some '-' || cs.head? == some '+' then cs.tail else cs
  if ds.isEmpty then none
  else if !ds.all Char.isDigit then none
  else
    let v : Int := if neg then -(digitsValue ds : Int) else (digitsValue ds : Int)
    if v < -9223372036854775808 || v > 9223372036854775807 then none else some v

/-! ## The package: data -/

/-- The error values of the package; `other` is an error value made outside
the package (by the Backlog client or by the HTTP exchange with Slack). -/
inductive Error where
  | ErrNoApiKey
  | ErrNoBacklogUrl
  | ErrNoSlackUrl
  | ErrNoSlackChannel
  | ErrNoSearchConditions
  | ErrNoCondition
  | ErrDueDateInvalid
  | other (msg : String)
deriving DecidableEq, Repr

open Error

/-- The type `backlog.User`, of which the package reads the field `Name`, a
pointer to a string. -/
structure User where
  Name : Option String
deriving DecidableEq, Repr

/-- The type `backlog.Issue`, of which the package reads three pointer
fields. -/
structure Issue where
  IssueKey : Option String
  Summary : Option String
  Assignee : Option User
deriving DecidableEq, Repr

/-- The type `backlog.GetIssuesOptions`.  The package reads and writes
`DueDateUntil` only; the three fields the package's test fills in are kept by
name and `Rest` holds all the remaining fields as one value. -/
structure GetIssuesOptions where
  ProjectIDs : List Int
  CategoryIDs : List Int
  StatusIDs : List Int
  DueDateUntil : Option String
  Rest : String
deriving DecidableEq, Repr

/-- The package's `SearchCondition`; `Condition` is a pointer and may be
nil. -/
structure SearchCondition where
  Name : String
  Condition : Option GetIssuesOptions
deriving DecidableEq, Repr

/-- The package's `ClientOption`.  `SearchConditions` is a slice: `none` is
the nil slice, `some []` a slice that is empty but not nil. -/
structure ClientOption where
  BacklogApiKey : String
  BacklogBaseUrl : String
  BacklogDueDate : String
  SlackWebhookUrl : String
  SlackChannel : String
  SlackAccountName : String
  SlackIconEmoji : String
  SlackIconUrl : String
  IsSinglePost : Bool
  DryRun : Bool
  SearchConditions : Option (List SearchCondition)
deriving DecidableEq, Repr

/-- The package's `slackParams`. -/
structure slackParams where
  Text : String
  Username : String
  IconEmoji : String
  IconURL : String
  Channel : String
deriving DecidableEq, Repr

/-- The package's `slackClient`. -/
structure slackClient where
  params : slackParams
  url : String
deriving DecidableEq, Repr

/-- What `backlog.New` keeps: the API key and the base URL. -/
structure BacklogClient where
  apiKey : String
  baseUrl : String
deriving DecidableEq, Repr

/-- The package's `Client`. -/
structure Client where
  backlogBaseUrl : String
  backlogClient : BacklogClient
  slackClient : slackClient
  backlogDueDate : String
  searchConditions : Option (List SearchCondition)
  isSinglePost : Bool
  dryRun : Bool
deriving DecidableEq, Repr

/-- What the package does to the outside world, in the order it happens: a
query sent to the ticket backend with its answer, a form posted to the chat
webhook with its answer (the response body and the error of `http.PostForm`
or of reading the body), and a text written to standard output. -/
inductive Event where
  | getIssues (client : BacklogClient) (query : GetIssuesOptions)
      (issues : List (Option Issue)) (err : Option Error)
  | postForm (url : String) (params : slackParams) (body : String) (err : Option Error)
  | stdout (text : String)
deriving DecidableEq, Repr

/-- The two collaborators.  Each answer may depend on all events so far. -/
structure Env where
  GetIssues : List Event → BacklogClient → GetIssuesOptions → List (Option Issue) × Option Error
  PostForm : List Event → String → slackParams → String × Option Error

/-- How a call that returns Go's `error` ends: it returns (`none` is the nil
error) or a run-time panic unwinds it. -/
inductive Outcome where
  | returned (err : Option Error)
  | panicked
deriving DecidableEq, Repr

deriving instance DecidableEq for Except

/-! ## The package: functions -/

/-- The package's `weekEnd`. -/
def weekEnd (t : Time) : Time :=
  let wd := t.Weekday
  if wd ≥ 5 then t
  else t.Add (mul64 (mul64 24 (sub64 5 t.Weekday)) Hour)

/-- The package's `endOfMonth`. -/
def endOfMonth (t : Time) : Time :=
  (Date t.Year (t.Month + 1) 1 0 0 0 0 0).AddDate 0 0 (-1)

/-- The package's `newSlackClient`. -/
def newSlackClient (url channel userName iconEmoji iconURL : String) : slackClient :=
  { params := { Text := "", Username := userName, IconEmoji := iconEmoji, IconURL := iconURL,
                Channel := channel },
    url := url }

/-- The `switch` on `opts.BacklogDueDate` in `newClient`: the resolved due
date, or `ErrDueDateInvalid`. -/
def dueDate (spec : String) (t : Time) : Except Error String :=
  if spec = "weekend" then .ok (weekEnd t).Format
  else if spec = "end_of_month" then .ok (endOfMonth t).Format
  else
    match Atoi spec with
    | none => .error ErrDueDateInvalid
    | some d => .ok (t.Add (mul64 (mul64 24 d) Hour)).Format

/-- The package's `newClient`. -/
def newClient (opts : ClientOption) (t : Time) : Except Error Client :=
  if opts.BacklogApiKey = "" then .error ErrNoApiKey
  else if opts.BacklogBaseUrl = "" then .error ErrNoBacklogUrl
  else if opts.SlackWebhookUrl = "" then .error ErrNoSlackUrl
  else if opts.SlackChannel = "" then .error ErrNoSlackChannel
  else if opts.SearchConditions = none then .error ErrNoSearchConditions
  else
    let accountName := if opts.SlackAccountName = "" then "Backlog-bot" else opts.SlackAccountName
    match dueDate opts.BacklogDueDate t with
    | .error e => .error e
    | .ok dd =>
      .ok { backlogClient := { apiKey := opts.BacklogApiKey, baseUrl := opts.BacklogBaseUrl },
            slackClient := newSlackClient opts.SlackWebhookUrl opts.SlackChannel accountName
              opts.SlackIconEmoji opts.SlackIconUrl,
            backlogDueDate := dd,
            searchConditions := opts.SearchConditions,
            isSinglePost := opts.IsSinglePost,
            backlogBaseUrl := opts.BacklogBaseUrl,
            dryRun := opts.DryRun }

/-- The query `fetchIssues` sends for a filter that is not nil: the filter,
with the client's due date put in when the filter has none.  (In Go the
filter object itself is written to; within one run that cannot be told from
this copy, because the value written is always the client's due date.) -/
def withDueDate (cl : Client) (condition : GetIssuesOptions) : GetIssuesOptions :=
  if condition.DueDateUntil = none then { condition with DueDateUntil := some cl.backlogDueDate }
  else condition

/-- The package's `Client.fetchIssues`, called after the events `h`: its
result and the events it adds. -/
def Client.fetchIssues (env : Env) (h : List Event) (cl : Client)
    (condition : Option GetIssuesOptions) : Except Error (List (Option Issue)) × List Event :=
  match condition with
  | none => (.error ErrNoCondition, [])
  | some c =>
    let q := withDueDate cl c
    let r := env.GetIssues h cl.backlogClient q
    match r.2 with
    | some e => (.error e, [Event.getIssues cl.backlogClient q r.1 r.2])
    | none => (.ok r.1, [Event.getIssues cl.backlogClient q r.1 r.2])

/-- The body of the `for` loop of `Client.buildPost`, from index `i` on, with
the lines gathered so far; `none` is the panic of dereferencing a nil
`Assignee.Name`. -/
def buildPostLoop (baseUrl : String) :
    Nat → List (Option Issue) → List String → Option (List String)
  | _, [], msg => some msg
  | i, v :: rest, msg =>
    if i ≥ 10 then some (msg ++ ["and more..."])
    else
      match v with
      | none => buildPostLoop baseUrl (i + 1) rest msg
      | some v =>
        let msg := match v.IssueKey with
          | some key => msg ++ [baseUrl ++ "/view/" ++ key]
          | none => msg
        let msg := match v.Summary with
          | some summary => msg ++ [summary]
          | none => msg
        match v.Assignee with
        | none => buildPostLoop baseUrl (i + 1) rest (msg ++ [""])
        | some a =>
          match a.Name with
          | none => none
          | some n => buildPostLoop baseUrl (i + 1) rest (msg ++ [n] ++ [""])

/-- The package's `Client.buildPost`; `none` is a run-time panic. -/
def Client.buildPost (cl : Client) (issues : List (Option Issue)) (name : String) :
    Option String :=
  let msg := if name ≠ "" then [name, "```"] else ["```"]
  match buildPostLoop cl.backlogBaseUrl 0 issues msg with
  | none => none
  | some msg => some (String.intercalate "\n" (msg ++ ["```"]))

/-- The package's `slackClient.post`, called after the events `h`: the
returned error and the events it adds.  (`json.Marshal` of five strings does
not fail; the field `Text` it overwrites is read nowhere else.) -/
def slackClient.post (env : Env) (h : List Event) (s : slackClient) (p : String) :
    Option Error × List Event :=
  let params := { s.params with Text := p }
  let r := env.PostForm h s.url params
  match r.2 with
  | some e => (some e, [Event.postForm s.url params r.1 r.2])
  | none =>
    (none, [Event.postForm s.url params r.1 r.2,
            Event.stdout ("post message: " ++ r.1 ++ "\n")])

/-- The package's `Client.post`, which returns nothing: the events it adds.
What `slackClient.post` returns is dropped. -/
def Client.post (env : Env) (h : List Event) (cl : Client) (p : String) : List Event :=
  if cl.dryRun then [Event.stdout (p ++ "\n")]
  else (cl.slackClient.post env h p).2

/-- The `for` loop of `Client.execute` over the search conditions still to
come, with the slice `posts` and after the events `h`: either the loop runs
to its end and hands on `posts`, or the call ends inside the loop; with the
events the loop adds. -/
def executeLoop (env : Env) (cl : Client) :
    List SearchCondition → List String → List Event → Except Outcome (List String) × List Event
  | [], posts, _ => (.ok posts, [])
  | v :: rest, posts, h =>
    match cl.fetchIssues env h v.Condition with
    | (.error e, ev) => (.error (.returned (some e)), ev)
    | (.ok issues, ev) =>
      match cl.buildPost issues v.Name with
      | none => (.error .panicked, ev)
      | some p =>
        if cl.isSinglePost then
          let r := executeLoop env cl rest (posts ++ [p]) (h ++ ev)
          (r.1, ev ++ r.2)
        else
          let ev2 := cl.post env (h ++ ev) p
          let r := executeLoop env cl rest posts (h ++ ev ++ ev2)
          (r.1, ev ++ ev2 ++ r.2)

/-- The package's `Client.execute`, called after the events `h`: how it ends
and the events it adds. -/
def Client.execute (env : Env) (h : List Event) (cl : Client) : Outcome × List Event :=
  match executeLoop env cl (cl.searchConditions.getD []) [] h with
  | (.error o, ev) => (o, ev)
  | (.ok posts, ev) =>
    if cl.isSinglePost then
      (.returned none, ev ++ cl.post env (h ++ ev) (String.intercalate "\n" posts))
    else (.returned none, ev)

/-- The package's `Post`, called after the events `h`: how it ends and the
events it adds. -/
def Post (env : Env) (h : List Event) (opts : ClientOption) (t : Time) : Outcome × List Event :=
  match newClient opts t with
  | .error e => (.returned (some e), [])
  | .ok cl => cl.execute env h

/-! ## Definitions used in the statements and proofs -/

/-- Month and day from the day of the year, as in the second half of
`absDate`. -/
def monthDayL (leap : Bool) (yday : Int) : Int × Int :=
  if leap && yday == 59 then (2, 29)
  else
    let day := if leap && yday > 59 then yday - 1 else yday
    let month := day / 31
    let stop := daysBefore (month + 1)
    if day ≥ stop then (month + 2, day - stop + 1)
    else (month + 1, day - daysBefore month + 1)

/-- Day of the year (counted from 0) on which month `m` starts. -/
def monthStart (leap : Bool) (m : Int) : Int :=
  daysBefore (m - 1) + (if leap && m ≥ 3 then 1 else 0)

/-- Number of days of month `m`. -/
def daysIn (leap : Bool) (m : Int) : Int := monthStart leap (m + 1) - monthStart leap m

/-- Length of a year in days. -/
def yearLen (y : Int) : Int := if isLeap y then 366 else 365

/-- Days since 0001-01-01 of the date handed to `time.Date`, as `time.Date`
computes them. -/
def dateDays (year month day : Int) : Int :=
  let m := month - 1
  let year := year + m / 12
  let m := m % 12
  let d := daysSinceEpoch year + daysBefore m
  let d := if isLeap year && m + 1 ≥ 3 then d + 1 else d
  d + (day - 1)

/-- The weekend rule in the words of the specification: the reference date
itself on a Saturday or a Sunday, otherwise the reference date plus
(5 - weekday) days, as `YYYY-MM-DD`. -/
def specWeekend (t : Time) : String :=
  if t.Weekday = 6 ∨ t.Weekday = 0 then formatDate (absDate t.absDays)
  else formatDate (absDate (t.absDays + (5 - t.Weekday)))

/-- The four required strings are not empty and the slice of search
conditions is not nil. -/
def requiredPresent (opts : ClientOption) : Prop :=
  opts.BacklogApiKey ≠ "" ∧ opts.BacklogBaseUrl ≠ "" ∧ opts.SlackWebhookUrl ≠ "" ∧
    opts.SlackChannel ≠ "" ∧ opts.SearchConditions ≠ none

instance (opts : ClientOption) : Decidable (requiredPresent opts) := by
  unfold requiredPresent
  infer_instance

/-- The options of the case `success` of `TestNewClient`, with the due-date
specification left open. -/
def testOpts (spec : String) : ClientOption :=
  { BacklogApiKey := "dummy",
    BacklogBaseUrl := "https://backlog.example.com",
    BacklogDueDate := spec,
    SlackWebhookUrl := "https://slack.example.com",
    SlackChannel := "test-channel",
    SlackAccountName := "test-slack-bot",
    SlackIconEmoji := ":backlog:",
    SlackIconUrl := "",
    IsSinglePost := true,
    DryRun := true,
    SearchConditions := some [
      { Name := "test",
        Condition := some { ProjectIDs := [1], CategoryIDs := [1], StatusIDs := [1],
                            DueDateUntil := none, Rest := "" } }] }

/-- A ticket backend that finds no issue and a chat webhook that answers
`ok`. -/
def quietEnv : Env :=
  { GetIssues := fun _ _ _ => ([], none),
    PostForm := fun _ _ _ => ("ok", none) }

/-- An issue whose assignee record is present but carries no name. -/
def namelessIssue : Issue :=
  { IssueKey := some "PRJ-1", Summary := some "fix the build", Assignee := some { Name := none } }

/-- A ticket backend that answers every query with `namelessIssue`. -/
def namelessEnv : Env :=
  { GetIssues := fun _ _ _ => ([some namelessIssue], none),
    PostForm := fun _ _ _ => ("ok", none) }

/-- A ticket backend that finds nothing on the first query of a run and
`namelessIssue` on every later one. -/
def namelessLaterEnv : Env :=
  { GetIssues := fun h _ _ => if h = [] then ([], none) else ([some namelessIssue], none),
    PostForm := fun _ _ _ => ("ok", none) }

/-- A chat webhook that cannot be reached, and a ticket backend that finds
nothing. -/
def unreachableSlackEnv : Env :=
  { GetIssues := fun _ _ _ => ([], none),
    PostForm := fun _ _ _ => ("", some (Error.other "dial tcp: connection refused")) }

/-- A filter with nothing set. -/
def emptyFilter : GetIssuesOptions :=
  { ProjectIDs := [], CategoryIDs := [], StatusIDs := [], DueDateUntil := none, Rest := "" }

/-- A client as `newClient` builds it, with two search conditions. -/
def twoConditions (single dry : Bool) : Client :=
  { backlogBaseUrl := "https://backlog.example.com",
    backlogClient := { apiKey := "dummy", baseUrl := "https://backlog.example.com" },
    slackClient := newSlackClient "https://slack.example.com" "test-channel" "Backlog-bot" "" "",
    backlogDueDate := "2000-01-04",
    searchConditions := some [{ Name := "first", Condition := some emptyFilter },
                              { Name := "second", Condition := some emptyFilter }],
    isSinglePost := single,
    dryRun := dry }

/-- What one search condition contributes to a run in which it is fetched and
formatted: the query sent, the issues that came back and the message built. -/
structure Step where
  query : GetIssuesOptions
  issues : List (Option Issue)
  message : String

/-- The step belongs to the search condition `v` of client `cl`: the query is
the filter of `v` with the due date put in, and the message is what
`buildPost` returns for the issues and the name of `v`. -/
def Step.of (cl : Client) (v : SearchCondition) (s : Step) : Prop :=
  v.Condition.map (withDueDate cl) = some s.query ∧
    cl.buildPost s.issues v.Name = some s.message

/-- The successful query event of a step. -/
def Step.fetched (cl : Client) (s : Step) : Event :=
  Event.getIssues cl.backlogClient s.query s.issues none

/-- The events `evs` are one dispatch of the message `p` by `cl`: in a dry run
the line written to standard output; otherwise one form posted to the webhook
of `cl` with text `p`, followed, when the exchange went through, by the line
that reports the response body. -/
def isDispatch (cl : Client) (p : String) (evs : List Event) : Prop :=
  if cl.dryRun then evs = [Event.stdout (p ++ "\n")]
  else ∃ body err,
    evs = Event.postForm cl.slackClient.url { cl.slackClient.params with Text := p } body err
      :: (match err with
          | none => [Event.stdout ("post message: " ++ body ++ "\n")]
          | some _ => [])

/-- Every query of the run recorded in `evs` was answered without error and
with issues for which `buildPost` returns. -/
def fetchesFine (cl : Client) (evs : List Event) : Prop :=
  ∀ c q issues err, Event.getIssues c q issues err ∈ evs →
    err = none ∧ ∀ name, cl.buildPost issues name ≠ none

/-- The lines the body of the loop of `buildPost` appends for one entry of the
list: nothing for a nil entry; for an issue the URL line when the key is
there, the summary when it is there, the name of the assignee when there is an
assignee, and an empty line.  `none` is the panic on an assignee whose `Name`
is nil. -/
def issueLines (baseUrl : String) (v : Option Issue) : Option (List String) :=
  match v with
  | none => some []
  | some v =>
    let key := match v.IssueKey with
      | some key => [baseUrl ++ "/view/" ++ key]
      | none => []
    let summary := match v.Summary with
      | some summary => [summary]
      | none => []
    match v.Assignee with
    | none => some (key ++ summary ++ [""])
    | some a =>
      match a.Name with
      | none => none
      | some n => some (key ++ summary ++ [n] ++ [""])

/-- The lines of the entries of a list one after the other; `none` when one of
the entries has an assignee without a name. -/
def bodyLines (baseUrl : String) : List (Option Issue) → Option (List String)
  | [] => some []
  | v :: rest =>
    match issueLines baseUrl v, bodyLines baseUrl rest with
    | some a, some b => some (a ++ b)
    | _, _ => none

/-- The lines before the first entry: the label when it is not empty, and the
opening fence. -/
def headLines (name : String) : List String :=
  if name ≠ "" then [name, "```"] else ["```"]

/-- An issue with no key, no summary and no assignee. -/
def bareIssue : Issue := { IssueKey := none, Summary := none, Assignee := none }

/-- An issue with a key, a summary and an assignee who has a name. -/
def fullIssue : Issue :=
  { IssueKey := some "PRJ-7", Summary := some "write the report",
    Assignee := some { Name := some "Hanako" } }

/-- Every assignee among the entries has a name. -/
def allNamed (issues : List (Option Issue)) : Prop :=
  ∀ v a, some v ∈ issues → v.Assignee = some a → a.Name ≠ none

/-- The message in the words of the specification: the label when it is not
empty, the opening fence, then for each issue that is not nil the URL line
when the key is present, the summary when it is present, the name of the
assignee when an assignee is present, and one empty line; at the end the
closing fence.  (For an assignee record without a name, of which the
specification says nothing, the name line is left empty.) -/
def specLines (baseUrl : String) (issues : List (Option Issue)) (name : String) :
    List String :=
  (if name ≠ "" then [name] else []) ++ ["```"] ++
    (issues.map (fun v =>
      match v with
      | none => []
      | some v =>
        (match v.IssueKey with
          | some key => [baseUrl ++ "/view/" ++ key]
          | none => []) ++
        (match v.Summary with
          | some summary => [summary]
          | none => []) ++
        (match v.Assignee with
          | some a => [a.Name.getD ""]
          | none => []) ++
        [""])).flatten ++
    ["```"]

/-- A client as `newClient` builds it, with three search conditions of which
the second has no filter. -/
def secondWithoutFilter (single dry : Bool) : Client :=
  { twoConditions single dry with
    searchConditions := some [{ Name := "first", Condition := some emptyFilter },
                              { Name := "second", Condition := none },
                              { Name := "third", Condition := some emptyFilter }] }

/-- A ticket backend that finds nothing on the first query of a run and fails
on every later one. -/
def failingLaterEnv : Env :=
  { GetIssues := fun h _ _ =>
      if h = [] then ([], none) else ([], some (Error.other "backlog: 503")),
    PostForm := fun _ _ _ => ("ok", none) }

/-- The event is a query to the ticket backend. -/
def Event.isQuery : Event → Bool
  | .getIssues _ _ _ _ => true
  | _ => false

/-- The texts written to standard output, in order. -/
def writtenTexts (evs : List Event) : List String :=
  evs.filterMap (fun ev => match ev with
    | .stdout text => some text
    | _ => none)

/-- The message texts of the forms posted to the chat webhook, in order. -/
def postedTexts (evs : List Event) : List String :=
  evs.filterMap (fun ev => match ev with
    | .postForm _ params _ _ => some params.Text
    | _ => none)

/-- The answers of the ticket backend depend on the queries it has answered
before, not on what went to the chat webhook or to standard output. -/
def ticketBackendOnly (env : Env) : Prop :=
  ∀ (h1 h2 : List Event) (bc : BacklogClient) (q : GetIssuesOptions),
    h1.filter Event.isQuery = h2.filter Event.isQuery →
    env.GetIssues h1 bc q = env.GetIssues h2 bc q

/-- The same client with `dryRun` false. -/
def Client.wet (cl : Client) : Client := { cl with dryRun := false }

/-- A ticket backend that looks at the chat traffic: it finds nothing as long
as no form has been posted to the webhook, and `fullIssue` afterwards. -/
def nosyEnv : Env :=
  { GetIssues := fun h _ _ => if postedTexts h = [] then ([], none) else ([some fullIssue], none),
    PostForm := fun _ _ _ => ("ok", none) }

/-! ## The calendar -/

theorem isLeap_iff (y : Int) :
    isLeap y = true ↔ (y % 4 = 0 ∧ (y % 100 ≠ 0 ∨ y % 400 = 0)) := by
  simp [isLeap]

theorem isLeap_decomp (a b c e : Int) (hb0 : 0 ≤ b) (hb : b ≤ 3) (hc0 : 0 ≤ c) (hc : c ≤ 24)
    (he0 : 0 ≤ e) (he : e ≤ 3) :
    isLeap (400 * a + 100 * b + 4 * c + e + 1) = true ↔ (e = 3 ∧ (c < 24 ∨ b = 3)) := by
  rw [isLeap_iff]
  omega

theorem daysSinceEpoch_decomp (a b c e : Int) (hb0 : 0 ≤ b) (hb : b ≤ 3) (hc0 : 0 ≤ c)
    (hc : c ≤ 24) (he0 : 0 ≤ e) (he : e ≤ 3) :
    daysSinceEpoch (400 * a + 100 * b + 4 * c + e + 1)
      = 146097 * a + 36524 * b + 1461 * c + 365 * e := by
  unfold daysSinceEpoch
  simp only []
  have h1 : (400 * a + 100 * b + 4 * c + e + 1 - 1) / 400 = a := by omega
  rw [h1]
  have h2 : (400 * a + 100 * b + 4 * c + e + 1 - 1 - 400 * a) / 100 = b := by omega
  rw [h2]
  have h3 : (400 * a + 100 * b + 4 * c + e + 1 - 1 - 400 * a - 100 * b) / 4 = c := by omega
  rw [h3]
  omega

theorem year_decomp (y : Int) : ∃ a b c e : Int, 0 ≤ b ∧ b ≤ 3 ∧ 0 ≤ c ∧ c ≤ 24 ∧ 0 ≤ e ∧
    e ≤ 3 ∧ y = 400 * a + 100 * b + 4 * c + e + 1 := by
  refine ⟨(y - 1) / 400, (y - 1) % 400 / 100, (y - 1) % 100 / 4, (y - 1) % 4,
    ?_, ?_, ?_, ?_, ?_, ?_, ?_⟩ <;> omega

theorem absDate_decomp (a b c e k : Int) (hb0 : 0 ≤ b) (hb : b ≤ 3) (hc0 : 0 ≤ c) (hc : c ≤ 24)
    (he0 : 0 ≤ e) (he : e ≤ 3) (hk0 : 0 ≤ k)
    (hk : k < 365 ∨ (k = 365 ∧ e = 3 ∧ (c < 24 ∨ b = 3))) :
    absDate (146097 * a + 36524 * b + 1461 * c + 365 * e + k)
      = { year := 400 * a + 100 * b + 4 * c + e + 1,
          month := (monthDayL (isLeap (400 * a + 100 * b + 4 * c + e + 1)) k).1,
          day := (monthDayL (isLeap (400 * a + 100 * b + 4 * c + e + 1)) k).2,
          yday := k } := by
  unfold absDate monthDayL
  simp only []
  have r3 : 0 ≤ 365 * e + k ∧ 365 * e + k ≤ 1460 := by omega
  have r3b : 365 * e + k = 1460 → (c < 24 ∨ b = 3) := by omega
  have r2 : 0 ≤ 1461 * c + (365 * e + k) ∧ 1461 * c + (365 * e + k) ≤ 36524 := by omega
  have r2b : 1461 * c + (365 * e + k) = 36524 → b = 3 := by omega
  have r1 : 0 ≤ 36524 * b + (1461 * c + (365 * e + k)) ∧
      36524 * b + (1461 * c + (365 * e + k)) ≤ 146096 := by omega
  have h1 : (146097 * a + 36524 * b + 1461 * c + 365 * e + k) / 146097 = a := by omega
  rw [h1]
  have e1 : 146097 * a + 36524 * b + 1461 * c + 365 * e + k - 146097 * a
      = 36524 * b + (1461 * c + (365 * e + k)) := by omega
  rw [e1]
  have h2 : (36524 * b + (1461 * c + (365 * e + k))) / 36524
      - (36524 * b + (1461 * c + (365 * e + k))) / 36524 / 4 = b := by
    generalize 1461 * c + (365 * e + k) = r at r2 r2b
    omega
  rw [h2]
  have e2 : 36524 * b + (1461 * c + (365 * e + k)) - 36524 * b
      = 1461 * c + (365 * e + k) := by omega
  rw [e2]
  have h3 : (1461 * c + (365 * e + k)) / 1461 = c := by
    generalize 365 * e + k = r at r3
    omega
  rw [h3]
  have e3 : 1461 * c + (365 * e + k) - 1461 * c = 365 * e + k := by omega
  rw [e3]
  have h4 : (365 * e + k) / 365 - (365 * e + k) / 365 / 4 = e := by omega
  rw [h4]
  have h5 : 365 * e + k - 365 * e = k := by omega
  rw [h5]
  split
  · rfl
  · split <;> split <;> rfl

theorem days_decomp (d : Int) : ∃ a b c e k : Int, 0 ≤ b ∧ b ≤ 3 ∧ 0 ≤ c ∧ c ≤ 24 ∧ 0 ≤ e ∧
    e ≤ 3 ∧ 0 ≤ k ∧ (k < 365 ∨ (k = 365 ∧ e = 3 ∧ (c < 24 ∨ b = 3))) ∧
    d = 146097 * a + 36524 * b + 1461 * c + 365 * e + k := by
  obtain ⟨a, d1, h1, h1a, h1b⟩ : ∃ a d1 : Int, d = 146097 * a + d1 ∧ 0 ≤ d1 ∧ d1 < 146097 :=
    ⟨d / 146097, d % 146097, by omega, by omega, by omega⟩
  obtain ⟨b, d2, h2, hb0, hb, h2a, h2b⟩ : ∃ b d2 : Int, d1 = 36524 * b + d2 ∧ 0 ≤ b ∧ b ≤ 3 ∧
      0 ≤ d2 ∧ (d2 < 36524 ∨ (d2 = 36524 ∧ b = 3)) := by
    by_cases h : d1 < 146096
    · exact ⟨d1 / 36524, d1 % 36524, by omega, by omega, by omega, by omega, by omega⟩
    · exact ⟨3, 36524, by omega, by omega, by omega, by omega, by omega⟩
  obtain ⟨c, d3, h3, hc0, hc, h3a, h3b⟩ : ∃ c d3 : Int, d2 = 1461 * c + d3 ∧ 0 ≤ c ∧ c ≤ 24 ∧
      0 ≤ d3 ∧ (d3 < 1460 ∨ (d3 = 1460 ∧ (c < 24 ∨ b = 3))) := by
    refine ⟨d2 / 1461, d2 % 1461, ?_, ?_, ?_, ?_, ?_⟩ <;> omega
  obtain ⟨e, k, h4, he0, he, h4a, h4b⟩ : ∃ e k : Int, d3 = 365 * e + k ∧ 0 ≤ e ∧ e ≤ 3 ∧
      0 ≤ k ∧ (k < 365 ∨ (k = 365 ∧ e = 3 ∧ (c < 24 ∨ b = 3))) := by
    by_cases h : d3 < 1460
    · exact ⟨d3 / 365, d3 % 365, by omega, by omega, by omega, by omega, by omega⟩
    · exact ⟨3, 365, by omega, by omega, by omega, by omega, by omega⟩
  exact ⟨a, b, c, e, k, hb0, hb, hc0, hc, he0, he, h4a, h4b, by omega⟩

/-- On day `k` of year `y`, `absDate` gives year `y`, and month and day as
`monthDayL` computes them. -/
theorem absDate_of_yday (y k : Int) (hk0 : 0 ≤ k) (hk : k < yearLen y) :
    absDate (daysSinceEpoch y + k)
      = { year := y, month := (monthDayL (isLeap y) k).1, day := (monthDayL (isLeap y) k).2,
          yday := k } := by
  obtain ⟨a, b, c, e, hb0, hb, hc0, hc, he0, he, rfl⟩ := year_decomp y
  have hl := isLeap_decomp a b c e hb0 hb hc0 hc he0 he
  rw [daysSinceEpoch_decomp a b c e hb0 hb hc0 hc he0 he]
  apply absDate_decomp a b c e k hb0 hb hc0 hc he0 he hk0
  unfold yearLen at hk
  split at hk
  · rename_i h
    have := hl.mp h
    omega
  · omega

/-- Every day is day `k` of some year `y`. -/
theorem days_exists (d : Int) : ∃ y k : Int, 0 ≤ k ∧ k < yearLen y ∧
    d = daysSinceEpoch y + k := by
  obtain ⟨a, b, c, e, k, hb0, hb, hc0, hc, he0, he, hk0, hk, rfl⟩ := days_decomp d
  have hl := isLeap_decomp a b c e hb0 hb hc0 hc he0 he
  refine ⟨400 * a + 100 * b + 4 * c + e + 1, k, hk0, ?_, ?_⟩
  · unfold yearLen
    split
    · omega
    · rename_i h
      rcases hk with hk | hk
      · exact hk
      · exact absurd (hl.mpr hk.2) h
  · rw [daysSinceEpoch_decomp a b c e hb0 hb hc0 hc he0 he]

theorem daysSinceEpoch_succ (y : Int) :
    daysSinceEpoch (y + 1) = daysSinceEpoch y + yearLen y := by
  obtain ⟨a, b, c, e, hb0, hb, hc0, hc, he0, he, rfl⟩ := year_decomp y
  have hl := isLeap_decomp a b c e hb0 hb hc0 hc he0 he
  rw [daysSinceEpoch_decomp a b c e hb0 hb hc0 hc he0 he]
  have hy : yearLen (400 * a + 100 * b + 4 * c + e + 1)
      = if e = 3 ∧ (c < 24 ∨ b = 3) then 366 else 365 := by
    unfold yearLen
    by_cases h : e = 3 ∧ (c < 24 ∨ b = 3)
    · rw [if_pos h, if_pos (hl.mpr h)]
    · rw [if_neg h, if_neg (fun h2 => h (hl.mp h2))]
  rw [hy]
  by_cases h1 : e < 3
  · have := daysSinceEpoch_decomp a b c (e + 1) hb0 hb hc0 hc (by omega) (by omega)
    rw [show 400 * a + 100 * b + 4 * c + e + 1 + 1 = 400 * a + 100 * b + 4 * c + (e + 1) + 1
      by omega, this, if_neg (by omega)]
    omega
  · by_cases h2 : c < 24
    · have := daysSinceEpoch_decomp a b (c + 1) 0 hb0 hb (by omega) (by omega) (by omega)
        (by omega)
      rw [show 400 * a + 100 * b + 4 * c + e + 1 + 1 = 400 * a + 100 * b + 4 * (c + 1) + 0 + 1
        by omega, this, if_pos (by omega)]
      omega
    · by_cases h3 : b < 3
      · have := daysSinceEpoch_decomp a (b + 1) 0 0 (by omega) (by omega) (by omega)
          (by omega) (by omega) (by omega)
        rw [show 400 * a + 100 * b + 4 * c + e + 1 + 1
          = 400 * a + 100 * (b + 1) + 4 * 0 + 0 + 1 by omega, this, if_neg (by omega)]
        omega
      · have := daysSinceEpoch_decomp (a + 1) 0 0 0 (by omega) (by omega) (by omega)
          (by omega) (by omega) (by omega)
        rw [show 400 * a + 100 * b + 4 * c + e + 1 + 1
          = 400 * (a + 1) + 100 * 0 + 4 * 0 + 0 + 1 by omega, this, if_pos (by omega)]
        omega

theorem monthDayL_table : ∀ leap : Bool, ∀ k : Fin 366,
    (k.val : Int) < (if leap then 366 else 365) →
      1 ≤ (monthDayL leap k.val).1 ∧ (monthDayL leap k.val).1 ≤ 12 ∧
      1 ≤ (monthDayL leap k.val).2 ∧
      (monthDayL leap k.val).2 ≤ daysIn leap (monthDayL leap k.val).1 ∧
      monthStart leap (monthDayL leap k.val).1 + ((monthDayL leap k.val).2 - 1) = k.val := by
  decide!

theorem monthDayL_start_table : ∀ leap : Bool, ∀ m : Fin 13, ∀ dd : Fin 32,
    1 ≤ m.val → 1 ≤ dd.val → (dd.val : Int) ≤ daysIn leap m.val →
      monthDayL leap (monthStart leap m.val + ((dd.val : Int) - 1))
        = ((m.val : Int), (dd.val : Int)) := by
  decide!

theorem daysIn_table : ∀ leap : Bool, ∀ m : Fin 13, 1 ≤ m.val →
    28 ≤ daysIn leap m.val ∧ daysIn leap m.val ≤ 31 ∧ 0 ≤ monthStart leap m.val ∧
      monthStart leap m.val + daysIn leap m.val ≤ (if leap then 366 else 365) := by
  decide!

/-- Month and day of day `k` of a year: a month from 1 to 12, a day of that
month, and `k` is that day counted from the start of the month. -/
theorem monthDayL_spec (leap : Bool) (k : Int) (hk0 : 0 ≤ k)
    (hk : k < (if leap then 366 else 365)) :
    1 ≤ (monthDayL leap k).1 ∧ (monthDayL leap k).1 ≤ 12 ∧ 1 ≤ (monthDayL leap k).2 ∧
      (monthDayL leap k).2 ≤ daysIn leap (monthDayL leap k).1 ∧
      monthStart leap (monthDayL leap k).1 + ((monthDayL leap k).2 - 1) = k := by
  have hk366 : k.toNat < 366 := by split at hk <;> omega
  have hcast : ((k.toNat : Nat) : Int) = k := Int.toNat_of_nonneg hk0
  have h := monthDayL_table leap ⟨k.toNat, hk366⟩
  simp only [hcast] at h
  exact h hk

/-- The day `dd` of month `m` is found again by `monthDayL`. -/
theorem monthDayL_start (leap : Bool) (m dd : Int) (hm1 : 1 ≤ m) (hm : m ≤ 12) (hd1 : 1 ≤ dd)
    (hd : dd ≤ daysIn leap m) :
    monthDayL leap (monthStart leap m + (dd - 1)) = (m, dd) := by
  have hm13 : m.toNat < 13 := by omega
  have hmc : ((m.toNat : Nat) : Int) = m := Int.toNat_of_nonneg (by omega)
  have hdi := daysIn_table leap ⟨m.toNat, hm13⟩ (by show 1 ≤ m.toNat; omega)
  simp only [hmc] at hdi
  have hd32 : dd.toNat < 32 := by omega
  have hdc : ((dd.toNat : Nat) : Int) = dd := Int.toNat_of_nonneg (by omega)
  have h := monthDayL_start_table leap ⟨m.toNat, hm13⟩ ⟨dd.toNat, hd32⟩
    (by show 1 ≤ m.toNat; omega) (by show 1 ≤ dd.toNat; omega)
  simp only [hmc, hdc] at h
  exact h hd

theorem daysIn_bounds (leap : Bool) (m : Int) (hm1 : 1 ≤ m) (hm : m ≤ 12) :
    28 ≤ daysIn leap m ∧ daysIn leap m ≤ 31 ∧ 0 ≤ monthStart leap m ∧
      monthStart leap m + daysIn leap m ≤ (if leap then 366 else 365) := by
  have hm13 : m.toNat < 13 := by omega
  have hmc : ((m.toNat : Nat) : Int) = m := Int.toNat_of_nonneg (by omega)
  have hdi := daysIn_table leap ⟨m.toNat, hm13⟩ (by show 1 ≤ m.toNat; omega)
  simp only [hmc] at hdi
  exact hdi

/-! ## Times -/

theorem wrap64_id (x : Int) (h1 : -9223372036854775808 ≤ x) (h2 : x < 9223372036854775808) :
    wrap64 x = x := by
  unfold wrap64
  omega

theorem Weekday_range (t : Time) : 0 ≤ t.Weekday ∧ t.Weekday ≤ 6 := by
  unfold Time.Weekday
  omega

theorem absDays_Add_days (t : Time) (j : Int) :
    (t.Add (j * nsPerDay)).absDays = t.absDays + j := by
  unfold Time.absDays Time.wall Time.Add nsPerDay
  simp only []
  omega

theorem Weekday_Add_days (t : Time) (j : Int) :
    (t.Add (j * nsPerDay)).Weekday = (t.Weekday + j) % 7 := by
  unfold Time.Weekday
  rw [absDays_Add_days]
  omega

/-- The offset `weekEnd` adds before a Friday is a whole number of days and
does not wrap. -/
theorem weekEnd_offset (wd : Int) (h0 : 0 ≤ wd) (h6 : wd ≤ 6) :
    mul64 (mul64 24 (sub64 5 wd)) Hour = (5 - wd) * nsPerDay := by
  have h1 : sub64 5 wd = 5 - wd := wrap64_id _ (by omega) (by omega)
  have h2 : mul64 24 (5 - wd) = 24 * (5 - wd) := wrap64_id _ (by omega) (by omega)
  rw [h1, h2]
  unfold mul64 Hour nsPerDay
  rw [wrap64_id _ (by omega) (by omega)]
  omega

theorem weekEnd_eq (t : Time) :
    weekEnd t = if t.Weekday ≥ 5 then t else t.Add ((5 - t.Weekday) * nsPerDay) := by
  unfold weekEnd
  simp only []
  rw [weekEnd_offset _ (Weekday_range t).1 (Weekday_range t).2]


theorem Date_midnight (y m d : Int) :
    (Date y m d 0 0 0 0 0).absDays = dateDays y m d ∧ (Date y m d 0 0 0 0 0).nsOfDay = 0 ∧
      (Date y m d 0 0 0 0 0).offset = 0 := by
  have hw : (Date y m d 0 0 0 0 0).wall = dateDays y m d * nsPerDay := by
    unfold Time.wall Date dateDays
    simp only []
    unfold nsPerDay nsPerSecond Hour unixEpochDay
    generalize daysSinceEpoch (y + (m - 1) / 12) + daysBefore ((m - 1) % 12) = u
    split <;> omega
  refine ⟨?_, ?_, rfl⟩
  · unfold Time.absDays
    rw [hw]
    unfold nsPerDay
    omega
  · unfold Time.nsOfDay
    rw [hw]
    unfold nsPerDay
    omega

theorem dateDays_month (y m d : Int) (hm1 : 1 ≤ m) (hm : m ≤ 12) :
    dateDays y m d = daysSinceEpoch y + monthStart (isLeap y) m + (d - 1) := by
  unfold dateDays monthStart
  simp only []
  have h1 : (m - 1) / 12 = 0 := by omega
  have h2 : (m - 1) % 12 = m - 1 := by omega
  rw [h1, h2]
  simp only [Int.add_zero]
  have h3 : (decide (m - 1 + 1 ≥ 3)) = decide (m ≥ 3) := by
    congr 1
    apply propext
    omega
  rw [h3]
  split <;> omega

theorem dateDays_month13 (y d : Int) :
    dateDays y 13 d = daysSinceEpoch (y + 1) + (d - 1) := by
  unfold dateDays
  simp only []
  have h1 : ((13 : Int) - 1) / 12 = 1 := by decide
  have h2 : ((13 : Int) - 1) % 12 = 0 := by decide
  rw [h1, h2]
  simp [daysBefore]

/-- The date of day `dd` of month `m` of year `y`. -/
theorem absDate_of_date (y m dd : Int) (hm1 : 1 ≤ m) (hm : m ≤ 12) (hd1 : 1 ≤ dd)
    (hd : dd ≤ daysIn (isLeap y) m) :
    absDate (daysSinceEpoch y + monthStart (isLeap y) m + (dd - 1))
      = { year := y, month := m, day := dd, yday := monthStart (isLeap y) m + (dd - 1) } := by
  have hb := daysIn_bounds (isLeap y) m hm1 hm
  have hk : monthStart (isLeap y) m + (dd - 1) < yearLen y := by
    unfold yearLen
    omega
  have := absDate_of_yday y (monthStart (isLeap y) m + (dd - 1)) (by omega) hk
  rw [Int.add_assoc, this, monthDayL_start (isLeap y) m dd hm1 hm hd1 hd]

/-- The date of any time has a month from 1 to 12. -/
theorem civil_spec (t : Time) : 1 ≤ t.Month ∧ t.Month ≤ 12 ∧ 1 ≤ t.Day ∧
    t.Day ≤ daysIn (isLeap t.Year) t.Month ∧
    t.absDays = daysSinceEpoch t.Year + monthStart (isLeap t.Year) t.Month + (t.Day - 1) := by
  obtain ⟨y, k, hk0, hk, hd⟩ := days_exists t.absDays
  have h := absDate_of_yday y k hk0 hk
  rw [← hd] at h
  have hs := monthDayL_spec (isLeap y) k hk0 (by unfold yearLen at hk; exact hk)
  unfold Time.Month Time.Day Time.Year Time.civil
  rw [h]
  simp only []
  refine ⟨hs.1, hs.2.1, hs.2.2.1, hs.2.2.2.1, ?_⟩
  rw [hd]
  have := hs.2.2.2.2
  omega

theorem monthStart_13 (leap : Bool) : monthStart leap 13 = if leap then 366 else 365 := by
  cases leap <;> decide

theorem monthStart_1 (leap : Bool) : monthStart leap 1 = 0 := by
  cases leap <;> decide

theorem AddDate_midnight (y m d : Int) (c : CivilDate)
    (hc : (Date y m d 0 0 0 0 0).civil = c) (days : Int) :
    (Date y m d 0 0 0 0 0).AddDate 0 0 days = Date c.year c.month (c.day + days) 0 0 0 0 0 := by
  obtain ⟨-, hn, ho⟩ := Date_midnight y m d
  unfold Time.AddDate
  simp only [hn, ho, hc]
  have e1 : (0 : Int) / Hour = 0 := by decide
  have e2 : (0 : Int) % Hour / 60000000000 = 0 := by decide
  have e3 : (0 : Int) % 60000000000 / nsPerSecond = 0 := by decide
  have e4 : (0 : Int) % nsPerSecond = 0 := by decide
  rw [e1, e2, e3, e4, Int.add_zero, Int.add_zero]

/-- The day count of `endOfMonth t`: the last day of the month of `t`, at
midnight UTC. -/
theorem endOfMonth_absDays (t : Time) :
    (endOfMonth t).absDays
      = daysSinceEpoch t.Year + monthStart (isLeap t.Year) t.Month
          + (daysIn (isLeap t.Year) t.Month - 1) ∧
    (endOfMonth t).nsOfDay = 0 ∧ (endOfMonth t).offset = 0 := by
  obtain ⟨hm1, hm, -, -, -⟩ := civil_spec t
  unfold endOfMonth
  generalize t.Year = Y at *
  generalize t.Month = M at *
  by_cases h12 : M = 12
  · subst h12
    have hF := (Date_midnight Y (12 + 1) 1).1
    rw [show ((12 : Int) + 1) = 13 by decide, dateDays_month13] at hF
    have hc : (Date Y 13 1 0 0 0 0 0).civil
        = { year := Y + 1, month := 1, day := 1, yday := monthStart (isLeap (Y + 1)) 1 + (1 - 1) } := by
      unfold Time.civil
      rw [hF]
      have := absDate_of_date (Y + 1) 1 1 (by decide) (by decide) (by decide)
        (by have := daysIn_bounds (isLeap (Y + 1)) 1 (by decide) (by decide); omega)
      rw [monthStart_1] at this
      rw [monthStart_1]
      simpa using this
    rw [show ((12 : Int) + 1) = 13 by decide, AddDate_midnight Y 13 1 _ hc (-1)]
    simp only []
    obtain ⟨ha, hn, ho⟩ := Date_midnight (Y + 1) 1 (1 + -1)
    refine ⟨?_, hn, ho⟩
    rw [ha, dateDays_month (Y + 1) 1 _ (by decide) (by decide), monthStart_1,
      daysSinceEpoch_succ]
    unfold daysIn
    rw [show ((12 : Int) + 1) = 13 by decide, monthStart_13]
    unfold yearLen
    split <;> omega
  · have hF := (Date_midnight Y (M + 1) 1).1
    rw [dateDays_month Y (M + 1) 1 (by omega) (by omega)] at hF
    have hc : (Date Y (M + 1) 1 0 0 0 0 0).civil
        = { year := Y, month := M + 1, day := 1,
            yday := monthStart (isLeap Y) (M + 1) + (1 - 1) } := by
      unfold Time.civil
      rw [hF]
      exact absDate_of_date Y (M + 1) 1 (by omega) (by omega) (by decide)
        (by have := daysIn_bounds (isLeap Y) (M + 1) (by omega) (by omega); omega)
    rw [AddDate_midnight Y (M + 1) 1 _ hc (-1)]
    simp only []
    obtain ⟨ha, hn, ho⟩ := Date_midnight Y (M + 1) (1 + -1)
    refine ⟨?_, hn, ho⟩
    rw [ha, dateDays_month Y (M + 1) _ (by omega) (by omega)]
    unfold daysIn
    omega



theorem newClient_of_required (opts : ClientOption) (t : Time) (h : requiredPresent opts) :
    newClient opts t =
      match dueDate opts.BacklogDueDate t with
      | .error e => .error e
      | .ok dd =>
        .ok { backlogClient := { apiKey := opts.BacklogApiKey, baseUrl := opts.BacklogBaseUrl },
              slackClient := newSlackClient opts.SlackWebhookUrl opts.SlackChannel
                (if opts.SlackAccountName = "" then "Backlog-bot" else opts.SlackAccountName)
                opts.SlackIconEmoji opts.SlackIconUrl,
              backlogDueDate := dd,
              searchConditions := opts.SearchConditions,
              isSinglePost := opts.IsSinglePost,
              backlogBaseUrl := opts.BacklogBaseUrl,
              dryRun := opts.DryRun } := by
  obtain ⟨h1, h2, h3, h4, h5⟩ := h
  unfold newClient
  rw [if_neg h1, if_neg h2, if_neg h3, if_neg h4, if_neg h5]

theorem newClient_ok_of_dueDate (opts : ClientOption) (t : Time) (h : requiredPresent opts)
    (dd : String) (hd : dueDate opts.BacklogDueDate t = .ok dd) :
    ∃ cl, newClient opts t = .ok cl ∧ cl.backlogDueDate = dd := by
  rw [newClient_of_required opts t h, hd]
  exact ⟨_, rfl, rfl⟩

theorem days_offset (N : Int) (h1 : -106751 ≤ N) (h2 : N ≤ 106751) :
    mul64 (mul64 24 N) Hour = N * nsPerDay := by
  have e1 : mul64 24 N = 24 * N := wrap64_id _ (by omega) (by omega)
  rw [e1]
  unfold mul64 Hour nsPerDay
  rw [wrap64_id _ (by omega) (by omega)]
  omega

theorem Format_Add_days (t : Time) (j : Int) :
    (t.Add (j * nsPerDay)).Format = formatDate (absDate (t.absDays + j)) := by
  unfold Time.Format Time.civil
  rw [absDays_Add_days]

theorem dueDate_weekend (t : Time) :
    dueDate "weekend" t = .ok (formatDate (absDate
      (if t.Weekday = 5 ∨ t.Weekday = 6 then t.absDays else t.absDays + (5 - t.Weekday)))) := by
  have hr := Weekday_range t
  unfold dueDate
  rw [if_pos rfl, weekEnd_eq]
  by_cases h : t.Weekday ≥ 5
  · rw [if_pos h, if_pos (by omega)]
    rfl
  · rw [if_neg h, if_neg (by omega), Format_Add_days]

theorem dueDate_error (spec : String) (t : Time) (e : Error)
    (h : dueDate spec t = .error e) : e = ErrDueDateInvalid := by
  unfold dueDate at h
  by_cases h1 : spec = "weekend"
  · rw [if_pos h1] at h
    cases h
  · by_cases h2 : spec = "end_of_month"
    · rw [if_neg h1, if_pos h2] at h
      cases h
    · rw [if_neg h1, if_neg h2] at h
      cases h3 : Atoi spec with
      | none =>
        rw [h3] at h
        cases h
        rfl
      | some d =>
        rw [h3] at h
        cases h

theorem dueDate_days (spec : String) (N : Int) (t : Time) (hs : Atoi spec = some N) :
    dueDate spec t = .ok (t.Add (mul64 (mul64 24 N) Hour)).Format := by
  have h1 : spec ≠ "weekend" := by
    intro h
    have e : Atoi "weekend" = none := by decide
    rw [h, e] at hs
    cases hs
  have h2 : spec ≠ "end_of_month" := by
    intro h
    have e : Atoi "end_of_month" = none := by decide
    rw [h, e] at hs
    cases hs
  unfold dueDate
  rw [if_neg h1, if_neg h2, hs]

/-! ## Claims about `newClient` and the due date -/

/-- C1. `Post` returns the error of the first check of `newClient` that fails,
in the fixed order API key, base URL, webhook URL, channel, search conditions
(nil fails, an empty slice that is not nil passes), and the due-date
specification is looked at only after these five; whenever `newClient` fails,
`Post` adds no event: no query to the ticket backend and no dispatch. -/
theorem Post_validation_order (env : Env) (h : List Event) (opts : ClientOption) (t : Time) :
    (opts.BacklogApiKey = "" → Post env h opts t = (.returned (some ErrNoApiKey), [])) ∧
    (opts.BacklogApiKey ≠ "" → opts.BacklogBaseUrl = "" →
      Post env h opts t = (.returned (some ErrNoBacklogUrl), [])) ∧
    (opts.BacklogApiKey ≠ "" → opts.BacklogBaseUrl ≠ "" → opts.SlackWebhookUrl = "" →
      Post env h opts t = (.returned (some ErrNoSlackUrl), [])) ∧
    (opts.BacklogApiKey ≠ "" → opts.BacklogBaseUrl ≠ "" → opts.SlackWebhookUrl ≠ "" →
      opts.SlackChannel = "" → Post env h opts t = (.returned (some ErrNoSlackChannel), [])) ∧
    (opts.BacklogApiKey ≠ "" → opts.BacklogBaseUrl ≠ "" → opts.SlackWebhookUrl ≠ "" →
      opts.SlackChannel ≠ "" → opts.SearchConditions = none →
      Post env h opts t = (.returned (some ErrNoSearchConditions), [])) ∧
    (opts.BacklogApiKey ≠ "" → opts.BacklogBaseUrl ≠ "" → opts.SlackWebhookUrl ≠ "" →
      opts.SlackChannel ≠ "" → opts.SearchConditions = some [] →
      dueDate opts.BacklogDueDate t = .error ErrDueDateInvalid →
      Post env h opts t = (.returned (some ErrDueDateInvalid), [])) ∧
    (requiredPresent opts → dueDate opts.BacklogDueDate t = .error ErrDueDateInvalid →
      Post env h opts t = (.returned (some ErrDueDateInvalid), [])) ∧
    (newClient opts t = .error ErrDueDateInvalid → requiredPresent opts) ∧
    (∀ l, opts.SearchConditions = some l → newClient opts t ≠ .error ErrNoSearchConditions) ∧
    (∀ e, newClient opts t = .error e → Post env h opts t = (.returned (some e), [])) := by
  have hpost : ∀ e, newClient opts t = .error e →
      Post env h opts t = (.returned (some e), []) := by
    intro e he
    unfold Post
    rw [he]
  have hdue : requiredPresent opts → dueDate opts.BacklogDueDate t = .error ErrDueDateInvalid →
      Post env h opts t = (.returned (some ErrDueDateInvalid), []) := by
    intro hreq hd
    apply hpost
    rw [newClient_of_required opts t hreq, hd]
  have hcases : newClient opts t = .error ErrNoApiKey ∨
      newClient opts t = .error ErrNoBacklogUrl ∨ newClient opts t = .error ErrNoSlackUrl ∨
      newClient opts t = .error ErrNoSlackChannel ∨
      (opts.SearchConditions = none ∧ newClient opts t = .error ErrNoSearchConditions) ∨
      requiredPresent opts := by
    unfold newClient
    by_cases h1 : opts.BacklogApiKey = ""
    · rw [if_pos h1]
      exact Or.inl rfl
    by_cases h2 : opts.BacklogBaseUrl = ""
    · rw [if_neg h1, if_pos h2]
      exact Or.inr (Or.inl rfl)
    by_cases h3 : opts.SlackWebhookUrl = ""
    · rw [if_neg h1, if_neg h2, if_pos h3]
      exact Or.inr (Or.inr (Or.inl rfl))
    by_cases h4 : opts.SlackChannel = ""
    · rw [if_neg h1, if_neg h2, if_neg h3, if_pos h4]
      exact Or.inr (Or.inr (Or.inr (Or.inl rfl)))
    by_cases h5 : opts.SearchConditions = none
    · rw [if_neg h1, if_neg h2, if_neg h3, if_neg h4, if_pos h5]
      exact Or.inr (Or.inr (Or.inr (Or.inr (Or.inl ⟨h5, rfl⟩))))
    exact Or.inr (Or.inr (Or.inr (Or.inr (Or.inr ⟨h1, h2, h3, h4, h5⟩))))
  refine ⟨?_, ?_, ?_, ?_, ?_, ?_, hdue, ?_, ?_, hpost⟩
  · intro h1
    apply hpost
    unfold newClient
    rw [if_pos h1]
  · intro h1 h2
    apply hpost
    unfold newClient
    rw [if_neg h1, if_pos h2]
  · intro h1 h2 h3
    apply hpost
    unfold newClient
    rw [if_neg h1, if_neg h2, if_pos h3]
  · intro h1 h2 h3 h4
    apply hpost
    unfold newClient
    rw [if_neg h1, if_neg h2, if_neg h3, if_pos h4]
  · intro h1 h2 h3 h4 h5
    apply hpost
    unfold newClient
    rw [if_neg h1, if_neg h2, if_neg h3, if_neg h4, if_pos h5]
  · intro h1 h2 h3 h4 h5 hd
    exact hdue ⟨h1, h2, h3, h4, by rw [h5]; exact Option.some_ne_none _⟩ hd
  · intro he
    rcases hcases with h | h | h | h | ⟨-, h⟩ | h
    · rw [h] at he
      cases he
    · rw [h] at he
      cases he
    · rw [h] at he
      cases he
    · rw [h] at he
      cases he
    · rw [h] at he
      cases he
    · exact h
  · intro l hl he
    rcases hcases with h | h | h | h | ⟨h, -⟩ | h
    · rw [h] at he
      cases he
    · rw [h] at he
      cases he
    · rw [h] at he
      cases he
    · rw [h] at he
      cases he
    · rw [hl] at h
      cases h
    · rw [newClient_of_required opts t h] at he
      cases hd : dueDate opts.BacklogDueDate t with
      | error e =>
        rw [hd] at he
        have := dueDate_error _ _ _ hd
        rw [this] at he
        cases he
      | ok dd =>
        rw [hd] at he
        cases he

/-- C1, at the options of the package's test with the API key and the channel
both left empty and against a backend that would answer: the error is that of
the API key, the earlier check, and nothing happens. -/
theorem Post_validation_order_witness :
    ({ testOpts "weekend" with BacklogApiKey := "", SlackChannel := "" }).BacklogApiKey = "" ∧
    Post quietEnv [] { testOpts "weekend" with BacklogApiKey := "", SlackChannel := "" }
      (utc 2000 1 1) = (.returned (some ErrNoApiKey), []) :=
  ⟨rfl, (Post_validation_order quietEnv []
    { testOpts "weekend" with BacklogApiKey := "", SlackChannel := "" } (utc 2000 1 1)).1 rfl⟩

/-- C2 fails as written: on Sunday 2000-01-02 the specification's rule gives
the reference date itself, `2000-01-02`, while `newClient` resolves `weekend`
to the following Friday, `2000-01-07` (as the package's test of `weekEnd`
expects). -/
theorem weekend_sunday_counterexample :
    (utc 2000 1 2).Weekday = 0 ∧
    specWeekend (utc 2000 1 2) = "2000-01-02" ∧
    (∃ cl, newClient (testOpts "weekend") (utc 2000 1 2) = .ok cl ∧
      cl.backlogDueDate = "2000-01-07") ∧
    ¬ (∃ cl, newClient (testOpts "weekend") (utc 2000 1 2) = .ok cl ∧
      cl.backlogDueDate = specWeekend (utc 2000 1 2)) := by
  have h1 : newClient (testOpts "weekend") (utc 2000 1 2)
      = .ok { backlogClient := { apiKey := "dummy", baseUrl := "https://backlog.example.com" },
              slackClient := newSlackClient "https://slack.example.com" "test-channel"
                "test-slack-bot" ":backlog:" "",
              backlogDueDate := "2000-01-07",
              searchConditions := (testOpts "weekend").SearchConditions,
              isSinglePost := true,
              backlogBaseUrl := "https://backlog.example.com",
              dryRun := true } := by decide
  have h2 : specWeekend (utc 2000 1 2) = "2000-01-02" := by decide
  refine ⟨by decide, h2, ⟨_, h1, rfl⟩, ?_⟩
  rintro ⟨cl, hcl, hdd⟩
  rw [h1] at hcl
  cases hcl
  rw [h2] at hdd
  exact absurd hdd (by decide)

/-- C2 as amended: with the required options present and the specification
`weekend`, `newClient` succeeds and the due date is the date of the reference
time when that is a Friday or a Saturday, and otherwise its date plus
(5 - weekday) days, which is the following Friday; formatted `YYYY-MM-DD`. -/
theorem newClient_weekend_dueDate (opts : ClientOption) (t : Time)
    (hreq : requiredPresent opts) (hw : opts.BacklogDueDate = "weekend") :
    ∃ cl, newClient opts t = .ok cl ∧
      cl.backlogDueDate = formatDate (absDate
        (if t.Weekday = 5 ∨ t.Weekday = 6 then t.absDays
         else t.absDays + (5 - t.Weekday))) := by
  apply newClient_ok_of_dueDate opts t hreq
  rw [hw, dueDate_weekend]

/-- C2 as amended, on Sunday 2000-01-02. -/
theorem newClient_weekend_dueDate_witness :
    requiredPresent (testOpts "weekend") ∧ (testOpts "weekend").BacklogDueDate = "weekend" ∧
    ∃ cl, newClient (testOpts "weekend") (utc 2000 1 2) = .ok cl ∧
      cl.backlogDueDate = formatDate (absDate
        (if (utc 2000 1 2).Weekday = 5 ∨ (utc 2000 1 2).Weekday = 6 then (utc 2000 1 2).absDays
         else (utc 2000 1 2).absDays + (5 - (utc 2000 1 2).Weekday))) :=
  ⟨by decide, rfl, newClient_weekend_dueDate (testOpts "weekend") (utc 2000 1 2) (by decide) rfl⟩

/-- C3. `weekEnd t` is `t` itself on a Friday or a Saturday; on the other days
it is `t` plus (5 - weekday) whole days, which falls on a Friday with no Friday
on the days from `t` up to it; so the result is always a Friday or a Saturday,
never earlier than `t`, at most five days later and in the zone of `t`.  The
four cases of the package's test hold. -/
theorem weekEnd_friday_or_saturday (t : Time) :
    ((t.Weekday = 5 ∨ t.Weekday = 6) → weekEnd t = t) ∧
    (t.Weekday < 5 →
      weekEnd t = t.Add ((5 - t.Weekday) * nsPerDay) ∧ (weekEnd t).Weekday = 5 ∧
      ∀ j : Int, 0 ≤ j → j < 5 - t.Weekday → (t.Add (j * nsPerDay)).Weekday ≠ 5) ∧
    ((weekEnd t).Weekday = 5 ∨ (weekEnd t).Weekday = 6) ∧
    t.unixNano ≤ (weekEnd t).unixNano ∧
    (weekEnd t).unixNano ≤ t.unixNano + 5 * nsPerDay ∧
    (weekEnd t).offset = t.offset ∧
    (weekEnd (utc 2000 1 2)).Format = "2000-01-07" ∧
    (weekEnd (utc 2000 1 6)).Format = "2000-01-07" ∧
    (weekEnd (utc 2000 1 7)).Format = "2000-01-07" ∧
    (weekEnd (utc 2000 1 8)).Format = "2000-01-08" := by
  have hr := Weekday_range t
  have he := weekEnd_eq t
  refine ⟨?_, ?_, ?_, ?_, ?_, ?_, by decide, by decide, by decide, by decide⟩
  · intro h
    rw [he, if_pos (by omega)]
  · intro h
    have he2 : weekEnd t = t.Add ((5 - t.Weekday) * nsPerDay) := by
      rw [he, if_neg (by omega)]
    refine ⟨he2, ?_, ?_⟩
    · rw [he2, Weekday_Add_days]
      omega
    · intro j hj0 hj
      rw [Weekday_Add_days]
      omega
  · by_cases h : t.Weekday ≥ 5
    · rw [he, if_pos h]
      omega
    · rw [he, if_neg h, Weekday_Add_days]
      omega
  · by_cases h : t.Weekday ≥ 5
    · rw [he, if_pos h]
    · rw [he, if_neg h]
      unfold Time.Add nsPerDay
      simp only []
      omega
  · by_cases h : t.Weekday ≥ 5
    · rw [he, if_pos h]
      unfold nsPerDay
      omega
    · rw [he, if_neg h]
      unfold Time.Add nsPerDay
      simp only []
      omega
  · by_cases h : t.Weekday ≥ 5
    · rw [he, if_pos h]
    · rw [he, if_neg h]
      rfl

/-- C4. `endOfMonth t` is the last day of the year and month of `t`: it has the
year and the month of `t`, its day is the number of days of that month, and
24 hours later it is the 1st of the following month (January of the next year
after December).  February 2000 gives the 29th, February 1900 and 2001 the
28th, December the 31st, April the 30th. -/
theorem endOfMonth_last_day (t : Time) :
    (endOfMonth t).Year = t.Year ∧ (endOfMonth t).Month = t.Month ∧
    (endOfMonth t).Day = daysIn (isLeap t.Year) t.Month ∧
    ((endOfMonth t).Add nsPerDay).Day = 1 ∧
    ((endOfMonth t).Add nsPerDay).Month = (if t.Month = 12 then 1 else t.Month + 1) ∧
    ((endOfMonth t).Add nsPerDay).Year = (if t.Month = 12 then t.Year + 1 else t.Year) ∧
    (endOfMonth (utc 2000 2 1)).Format = "2000-02-29" ∧
    (endOfMonth (utc 2000 2 29)).Format = "2000-02-29" ∧
    (endOfMonth (utc 1900 2 10)).Format = "1900-02-28" ∧
    (endOfMonth (utc 2001 2 28)).Format = "2001-02-28" ∧
    (endOfMonth (utc 1999 12 15)).Format = "1999-12-31" ∧
    (endOfMonth (utc 2000 4 30)).Format = "2000-04-30" ∧
    (endOfMonth (utc 2000 7 1)).Format = "2000-07-31" := by
  obtain ⟨hm1, hm, -, -, -⟩ := civil_spec t
  obtain ⟨ha, -, -⟩ := endOfMonth_absDays t
  have hb := daysIn_bounds (isLeap t.Year) t.Month hm1 hm
  have hc : (endOfMonth t).civil
      = { year := t.Year, month := t.Month, day := daysIn (isLeap t.Year) t.Month,
          yday := monthStart (isLeap t.Year) t.Month
            + (daysIn (isLeap t.Year) t.Month - 1) } := by
    unfold Time.civil
    rw [ha]
    exact absDate_of_date _ _ _ hm1 hm (by omega) (by omega)
  have hnext : ((endOfMonth t).Add nsPerDay).civil
      = { year := (if t.Month = 12 then t.Year + 1 else t.Year),
          month := (if t.Month = 12 then 1 else t.Month + 1),
          day := 1,
          yday := (if t.Month = 12 then 0 else monthStart (isLeap t.Year) (t.Month + 1)) } := by
    have h1 := absDays_Add_days (endOfMonth t) 1
    rw [Int.one_mul] at h1
    unfold Time.civil
    rw [h1, ha]
    by_cases h12 : t.Month = 12
    · rw [if_pos h12, if_pos h12, if_pos h12]
      have e : daysSinceEpoch t.Year + monthStart (isLeap t.Year) t.Month
          + (daysIn (isLeap t.Year) t.Month - 1) + 1
          = daysSinceEpoch (t.Year + 1) + monthStart (isLeap (t.Year + 1)) 1 + (1 - 1) := by
        rw [daysSinceEpoch_succ, monthStart_1]
        unfold daysIn
        rw [h12, show ((12 : Int) + 1) = 13 by decide, monthStart_13]
        unfold yearLen
        split <;> omega
      rw [e, absDate_of_date (t.Year + 1) 1 1 (by decide) (by decide) (by decide)
        (by have := daysIn_bounds (isLeap (t.Year + 1)) 1 (by decide) (by decide); omega),
        monthStart_1]
      rfl
    · rw [if_neg h12, if_neg h12, if_neg h12]
      have e : daysSinceEpoch t.Year + monthStart (isLeap t.Year) t.Month
          + (daysIn (isLeap t.Year) t.Month - 1) + 1
          = daysSinceEpoch t.Year + monthStart (isLeap t.Year) (t.Month + 1) + (1 - 1) := by
        unfold daysIn
        omega
      rw [e, absDate_of_date t.Year (t.Month + 1) 1 (by omega) (by omega) (by decide)
        (by have := daysIn_bounds (isLeap t.Year) (t.Month + 1) (by omega) (by omega); omega)]
      simp
  refine ⟨?_, ?_, ?_, ?_, ?_, ?_, by decide!, by decide!, by decide!, by decide!, by decide!,
    by decide!, by decide!⟩
  · show (endOfMonth t).civil.year = _
    rw [hc]
  · show (endOfMonth t).civil.month = _
    rw [hc]
  · show (endOfMonth t).civil.day = _
    rw [hc]
  · show ((endOfMonth t).Add nsPerDay).civil.day = _
    rw [hnext]
  · show ((endOfMonth t).Add nsPerDay).civil.month = _
    rw [hnext]
  · show ((endOfMonth t).Add nsPerDay).civil.year = _
    rw [hnext]


/-- C5 fails as written: the specification `106752` parses, and 106752 days
of nanoseconds leave the 64-bit range of `time.Duration`; with the reference
time 2000-01-01 the product wraps to a negative duration and the due date is
`1707-09-22`, while the reference date plus 106752 days is `2292-04-11`. -/
theorem relative_days_overflow_counterexample :
    Atoi "106752" = some 106752 ∧
    requiredPresent (testOpts "106752") ∧
    mul64 (mul64 24 106752) Hour = -9223371273709551616 ∧
    (∃ cl, newClient (testOpts "106752") (utc 2000 1 1) = .ok cl ∧
      cl.backlogDueDate = "1707-09-22") ∧
    formatDate (absDate ((utc 2000 1 1).absDays + 106752)) = "2292-04-11" := by
  have h1 : dueDate "106752" (utc 2000 1 1) = .ok "1707-09-22" := by decide!
  refine ⟨by decide, by decide, by decide, ?_, by decide!⟩
  exact newClient_ok_of_dueDate (testOpts "106752") (utc 2000 1 1) (by decide) _ h1

/-- C5 as amended: with the required options present and a specification that
`strconv.Atoi` reads as `N`, `newClient` succeeds and the due date is the
format of the reference time plus `time.Duration(24*N) * time.Hour` computed
in 64 bits; when `N` lies between -106751 and 106751, so that this product
does not wrap, that is the date of the reference time plus `N` days as
`YYYY-MM-DD`. -/
theorem newClient_relative_days (opts : ClientOption) (t : Time) (N : Int)
    (hreq : requiredPresent opts) (hs : Atoi opts.BacklogDueDate = some N) :
    ∃ cl, newClient opts t = .ok cl ∧
      cl.backlogDueDate = (t.Add (mul64 (mul64 24 N) Hour)).Format ∧
      (-106751 ≤ N → N ≤ 106751 →
        cl.backlogDueDate = formatDate (absDate (t.absDays + N))) := by
  obtain ⟨cl, hcl, hdd⟩ := newClient_ok_of_dueDate opts t hreq _ (dueDate_days _ N t hs)
  refine ⟨cl, hcl, hdd, ?_⟩
  intro h1 h2
  rw [hdd, days_offset N h1 h2, Format_Add_days]

/-- C5 as amended, at the specification `3` and the reference time 2000-01-01:
the due date is `2000-01-04`. -/
theorem newClient_relative_days_witness :
    requiredPresent (testOpts "3") ∧ Atoi (testOpts "3").BacklogDueDate = some 3 ∧
    formatDate (absDate ((utc 2000 1 1).absDays + 3)) = "2000-01-04" ∧
    ∃ cl, newClient (testOpts "3") (utc 2000 1 1) = .ok cl ∧
      cl.backlogDueDate = (Time.Add (utc 2000 1 1) (mul64 (mul64 24 3) Hour)).Format ∧
      (-106751 ≤ (3 : Int) → (3 : Int) ≤ 106751 →
        cl.backlogDueDate = formatDate (absDate ((utc 2000 1 1).absDays + 3))) :=
  ⟨by decide, by decide, by decide,
    newClient_relative_days (testOpts "3") (utc 2000 1 1) 3 (by decide) (by decide)⟩

/-- C6. With the four required strings present and the search conditions not
nil, `newClient` returns `ErrDueDateInvalid` exactly when the due-date
specification is neither `weekend` nor `end_of_month` nor a string that
`strconv.Atoi` accepts, and it succeeds in every other case; `invalid` and the
empty string are not accepted by `strconv.Atoi`, a signed or unsigned decimal
number within the range of `int` is. -/
theorem newClient_dueDate_invalid_iff (opts : ClientOption) (t : Time)
    (hreq : requiredPresent opts) :
    (newClient opts t = .error ErrDueDateInvalid ↔
      (opts.BacklogDueDate ≠ "weekend" ∧ opts.BacklogDueDate ≠ "end_of_month" ∧
        Atoi opts.BacklogDueDate = none)) ∧
    (¬ (opts.BacklogDueDate ≠ "weekend" ∧ opts.BacklogDueDate ≠ "end_of_month" ∧
        Atoi opts.BacklogDueDate = none) → ∃ cl, newClient opts t = .ok cl) ∧
    Atoi "invalid" = none ∧ Atoi "" = none ∧ Atoi "weekend" = none ∧
    Atoi "end_of_month" = none ∧ Atoi "3" = some 3 ∧ Atoi "+3" = some 3 ∧
    Atoi "-3" = some (-3) ∧ Atoi "0" = some 0 ∧ Atoi "-" = none ∧ Atoi " 3" = none ∧
    Atoi "3 " = none ∧ Atoi "3.0" = none ∧ Atoi "1_000" = none ∧ Atoi "0x10" = none ∧
    Atoi "9223372036854775807" = some 9223372036854775807 ∧
    Atoi "9223372036854775808" = none ∧
    Atoi "-9223372036854775808" = some (-9223372036854775808) ∧
    Atoi "-9223372036854775809" = none := by
  have key : (opts.BacklogDueDate ≠ "weekend" ∧ opts.BacklogDueDate ≠ "end_of_month" ∧
        Atoi opts.BacklogDueDate = none) ∨ ∃ dd, dueDate opts.BacklogDueDate t = .ok dd := by
    unfold dueDate
    by_cases h1 : opts.BacklogDueDate = "weekend"
    · right
      rw [if_pos h1]
      exact ⟨_, rfl⟩
    · by_cases h2 : opts.BacklogDueDate = "end_of_month"
      · right
        rw [if_neg h1, if_pos h2]
        exact ⟨_, rfl⟩
      · cases h3 : Atoi opts.BacklogDueDate with
        | none => exact Or.inl ⟨h1, h2, rfl⟩
        | some d =>
          right
          rw [if_neg h1, if_neg h2]
          exact ⟨_, rfl⟩
  have bad : (opts.BacklogDueDate ≠ "weekend" ∧ opts.BacklogDueDate ≠ "end_of_month" ∧
        Atoi opts.BacklogDueDate = none) → newClient opts t = .error ErrDueDateInvalid := by
    rintro ⟨h1, h2, h3⟩
    rw [newClient_of_required opts t hreq]
    unfold dueDate
    rw [if_neg h1, if_neg h2, h3]
  refine ⟨⟨?_, bad⟩, ?_, by decide, by decide, by decide, by decide, by decide, by decide,
    by decide, by decide, by decide, by decide, by decide, by decide, by decide, by decide,
    by decide!, by decide!, by decide!, by decide!⟩
  · intro herr
    rcases key with h | ⟨dd, hdd⟩
    · exact h
    · obtain ⟨cl, hcl, -⟩ := newClient_ok_of_dueDate opts t hreq dd hdd
      rw [hcl] at herr
      cases herr
  · intro hn
    rcases key with h | ⟨dd, hdd⟩
    · exact absurd h hn
    · obtain ⟨cl, hcl, -⟩ := newClient_ok_of_dueDate opts t hreq dd hdd
      exact ⟨cl, hcl⟩

/-- C6, at the package's test case `ErrDueDateInvalid` (specification
`invalid`) and at a specification left empty. -/
theorem newClient_dueDate_invalid_iff_witness :
    requiredPresent (testOpts "invalid") ∧
    newClient (testOpts "invalid") (utc 2000 1 1) = .error ErrDueDateInvalid ∧
    requiredPresent (testOpts "") ∧
    newClient (testOpts "") (utc 2000 1 1) = .error ErrDueDateInvalid :=
  ⟨by decide,
   (newClient_dueDate_invalid_iff (testOpts "invalid") (utc 2000 1 1) (by decide)).1.mpr
     ⟨by decide, by decide, by decide⟩,
   by decide,
   (newClient_dueDate_invalid_iff (testOpts "") (utc 2000 1 1) (by decide)).1.mpr
     ⟨by decide, by decide, by decide⟩⟩

/-! ## Claims about `execute`, `fetchIssues` and `post` -/

theorem post_isDispatch (env : Env) (h : List Event) (cl : Client) (p : String) :
    isDispatch cl p (cl.post env h p) := by
  unfold isDispatch Client.post
  by_cases hd : cl.dryRun = true
  · rw [if_pos hd, if_pos hd]
  · rw [if_neg hd, if_neg hd]
    unfold slackClient.post
    simp only []
    refine ⟨(env.PostForm h cl.slackClient.url { cl.slackClient.params with Text := p }).1,
      (env.PostForm h cl.slackClient.url { cl.slackClient.params with Text := p }).2, ?_⟩
    cases (env.PostForm h cl.slackClient.url { cl.slackClient.params with Text := p }).2 <;> rfl

theorem post_no_query (env : Env) (h : List Event) (cl : Client) (p : String) :
    ∀ c q issues err, Event.getIssues c q issues err ∉ cl.post env h p := by
  intro c q issues err hmem
  unfold Client.post slackClient.post at hmem
  simp only [] at hmem
  split at hmem
  · simp at hmem
  · split at hmem <;> simp at hmem

/-- One turn of the loop of `execute` for a condition whose fetch and format
go through. -/
theorem fetchIssues_fine (env : Env) (h : List Event) (cl : Client) (v : SearchCondition)
    (hv : v.Condition ≠ none)
    (hev : fetchesFine cl (cl.fetchIssues env h v.Condition).2) :
    ∃ s : Step, Step.of cl v s ∧
      cl.fetchIssues env h v.Condition = (.ok s.issues, [s.fetched cl]) := by
  cases hc : v.Condition with
  | none => exact absurd hc hv
  | some c =>
    rw [hc] at hev
    unfold Client.fetchIssues at hev ⊢
    simp only [] at hev ⊢
    cases hr : (env.GetIssues h cl.backlogClient (withDueDate cl c)).2 with
    | some e =>
      rw [hr] at hev
      have := (hev _ _ _ _ (List.mem_singleton.mpr rfl)).1
      cases this
    | none =>
      rw [hr] at hev
      have hb := (hev _ _ _ _ (List.mem_singleton.mpr rfl)).2 v.Name
      cases hm : cl.buildPost (env.GetIssues h cl.backlogClient (withDueDate cl c)).1 v.Name with
      | none => exact absurd hm hb
      | some p =>
        refine ⟨⟨withDueDate cl c, (env.GetIssues h cl.backlogClient (withDueDate cl c)).1, p⟩,
          ⟨?_, hm⟩, rfl⟩
        rw [hc]
        rfl

theorem executeLoop_single (env : Env) (cl : Client) (hs : cl.isSinglePost = true) :
    ∀ (conds : List SearchCondition) (posts : List String) (h : List Event),
      (∀ v ∈ conds, v.Condition ≠ none) →
      fetchesFine cl (executeLoop env cl conds posts h).2 →
      ∃ steps : List Step, List.Forall₂ (Step.of cl) conds steps ∧
        executeLoop env cl conds posts h
          = (.ok (posts ++ steps.map Step.message), steps.map (Step.fetched cl)) := by
  intro conds
  induction conds with
  | nil =>
    intro posts h _ _
    exact ⟨[], List.Forall₂.nil, by simp [executeLoop]⟩
  | cons v rest ih =>
    intro posts h hnil hfine
    have hfine1 : fetchesFine cl (cl.fetchIssues env h v.Condition).2 := by
      intro c q issues err hmem
      apply hfine c q issues err
      rw [executeLoop]
      rcases hf : cl.fetchIssues env h v.Condition with ⟨res, ev⟩
      rw [hf] at hmem
      cases res with
      | error e => exact hmem
      | ok issues =>
        simp only []
        cases hb : cl.buildPost issues v.Name with
        | none => exact hmem
        | some p =>
          simp only [hs, if_true]
          exact List.mem_append_left _ hmem
    obtain ⟨s, hof, hf⟩ := fetchIssues_fine env h cl v (hnil v (List.mem_cons_self _ _)) hfine1
    have hstep : executeLoop env cl (v :: rest) posts h
        = ((executeLoop env cl rest (posts ++ [s.message]) (h ++ [s.fetched cl])).1,
           [s.fetched cl] ++ (executeLoop env cl rest (posts ++ [s.message])
              (h ++ [s.fetched cl])).2) := by
      rw [executeLoop, hf]
      simp only [hof.2, hs, if_true]
    rw [hstep] at hfine ⊢
    obtain ⟨steps, hsteps, hrest⟩ := ih (posts ++ [s.message]) (h ++ [s.fetched cl])
      (fun v hv => hnil v (List.mem_cons_of_mem _ hv))
      (fun c q issues err hmem => hfine c q issues err (List.mem_append_right _ hmem))
    refine ⟨s :: steps, List.Forall₂.cons hof hsteps, ?_⟩
    rw [hrest]
    simp


theorem executeLoop_perCondition (env : Env) (cl : Client) (hs : cl.isSinglePost = false) :
    ∀ (conds : List SearchCondition) (posts : List String) (h : List Event),
      (∀ v ∈ conds, v.Condition ≠ none) →
      fetchesFine cl (executeLoop env cl conds posts h).2 →
      ∃ steps : List (Step × List Event),
        List.Forall₂ (fun v sb => Step.of cl v sb.1 ∧ isDispatch cl sb.1.message sb.2)
          conds steps ∧
        executeLoop env cl conds posts h
          = (.ok posts, (steps.map (fun sb => sb.1.fetched cl :: sb.2)).flatten) := by
  intro conds
  induction conds with
  | nil =>
    intro posts h _ _
    exact ⟨[], List.Forall₂.nil, by simp [executeLoop]⟩
  | cons v rest ih =>
    intro posts h hnil hfine
    have hfine1 : fetchesFine cl (cl.fetchIssues env h v.Condition).2 := by
      intro c q issues err hmem
      apply hfine c q issues err
      rw [executeLoop]
      rcases hf : cl.fetchIssues env h v.Condition with ⟨res, ev⟩
      rw [hf] at hmem
      cases res with
      | error e => exact hmem
      | ok issues =>
        simp only []
        cases hb : cl.buildPost issues v.Name with
        | none => exact hmem
        | some p =>
          simp only [hs, Bool.false_eq_true, if_false]
          exact List.mem_append_left _ (List.mem_append_left _ hmem)
    obtain ⟨s, hof, hf⟩ := fetchIssues_fine env h cl v (hnil v (List.mem_cons_self _ _)) hfine1
    have hstep : executeLoop env cl (v :: rest) posts h
        = ((executeLoop env cl rest posts
              (h ++ [s.fetched cl] ++ cl.post env (h ++ [s.fetched cl]) s.message)).1,
           [s.fetched cl] ++ cl.post env (h ++ [s.fetched cl]) s.message
             ++ (executeLoop env cl rest posts
              (h ++ [s.fetched cl] ++ cl.post env (h ++ [s.fetched cl]) s.message)).2) := by
      rw [executeLoop, hf]
      simp only [hof.2, hs, Bool.false_eq_true, if_false]
    rw [hstep] at hfine ⊢
    obtain ⟨steps, hsteps, hrest⟩ := ih posts
      (h ++ [s.fetched cl] ++ cl.post env (h ++ [s.fetched cl]) s.message)
      (fun v hv => hnil v (List.mem_cons_of_mem _ hv))
      (fun c q issues err hmem => hfine c q issues err (List.mem_append_right _ hmem))
    refine ⟨(s, cl.post env (h ++ [s.fetched cl]) s.message) :: steps,
      List.Forall₂.cons ⟨hof, post_isDispatch env _ cl s.message⟩ hsteps, ?_⟩
    rw [hrest]
    simp

theorem executeLoop_events_sub (env : Env) (h : List Event) (cl : Client) (e : Event)
    (he : e ∈ (executeLoop env cl (cl.searchConditions.getD []) [] h).2) :
    e ∈ (cl.execute env h).2 := by
  unfold Client.execute
  rcases hl : executeLoop env cl (cl.searchConditions.getD []) [] h with ⟨res, ev⟩
  rw [hl] at he
  cases res with
  | error o => exact he
  | ok posts =>
    simp only []
    split
    · exact List.mem_append_left _ he
    · exact he

/-- Combined mode, on every run in which each condition has a filter, each
query is answered without error and `buildPost` returns for the issues that
came back: `execute` returns nil, and its events are the queries of the
conditions in configured order followed by one dispatch, whose message is the
messages of the conditions joined by a newline (the empty string when there is
no condition). -/
theorem execute_singlePost_dispatch (env : Env) (h : List Event) (cl : Client)
    (hs : cl.isSinglePost = true)
    (hnil : ∀ v ∈ cl.searchConditions.getD [], v.Condition ≠ none)
    (hfine : fetchesFine cl (cl.execute env h).2) :
    ∃ (steps : List Step) (devs : List Event),
      List.Forall₂ (Step.of cl) (cl.searchConditions.getD []) steps ∧
      isDispatch cl (String.intercalate "\n" (steps.map Step.message)) devs ∧
      cl.execute env h = (.returned none, steps.map (Step.fetched cl) ++ devs) := by
  obtain ⟨steps, hsteps, hloop⟩ := executeLoop_single env cl hs (cl.searchConditions.getD [])
    [] h hnil (fun c q issues err hmem =>
      hfine c q issues err (executeLoop_events_sub env h cl _ hmem))
  refine ⟨steps, cl.post env (h ++ steps.map (Step.fetched cl))
    (String.intercalate "\n" (steps.map Step.message)), hsteps, post_isDispatch _ _ _ _, ?_⟩
  unfold Client.execute
  rw [hloop]
  simp only [hs, if_true, List.nil_append]

/-- Per-condition mode, on every run in which each condition has a filter,
each query is answered without error and `buildPost` returns for the issues
that came back: `execute` returns nil, and its events are, for each condition
in configured order, its query followed by one dispatch of its message, and
nothing after the last of them. -/
theorem execute_perCondition_dispatch (env : Env) (h : List Event) (cl : Client)
    (hs : cl.isSinglePost = false)
    (hnil : ∀ v ∈ cl.searchConditions.getD [], v.Condition ≠ none)
    (hfine : fetchesFine cl (cl.execute env h).2) :
    ∃ steps : List (Step × List Event),
      List.Forall₂ (fun v sb => Step.of cl v sb.1 ∧ isDispatch cl sb.1.message sb.2)
        (cl.searchConditions.getD []) steps ∧
      cl.execute env h
        = (.returned none, (steps.map (fun sb => sb.1.fetched cl :: sb.2)).flatten) := by
  obtain ⟨steps, hsteps, hloop⟩ := executeLoop_perCondition env cl hs
    (cl.searchConditions.getD []) [] h hnil (fun c q issues err hmem =>
      hfine c q issues err (executeLoop_events_sub env h cl _ hmem))
  refine ⟨steps, hsteps, ?_⟩
  unfold Client.execute
  rw [hloop]
  simp only [hs, Bool.false_eq_true, if_false]

theorem quiet_run_fine (single dry : Bool) :
    fetchesFine (twoConditions single dry) ((twoConditions single dry).execute quietEnv []).2 := by
  intro c q issues err hmem
  have hiss : issues = [] ∧ err = none := by
    cases single <;> cases dry <;>
      simp [Client.execute, executeLoop, Client.fetchIssues, Client.buildPost, buildPostLoop,
        Client.post, slackClient.post, twoConditions, quietEnv] at hmem <;>
      exact ⟨hmem.2.2.1, hmem.2.2.2⟩
  rw [hiss.1, hiss.2]
  refine ⟨rfl, ?_⟩
  intro name
  by_cases hn : name = "" <;> simp [Client.buildPost, buildPostLoop, hn]

/-- The description of combined mode applies to the run of two conditions
against a backend that finds nothing. -/
theorem execute_singlePost_dispatch_witness :
    ∃ (steps : List Step) (devs : List Event),
      List.Forall₂ (Step.of (twoConditions true true))
        ((twoConditions true true).searchConditions.getD []) steps ∧
      isDispatch (twoConditions true true)
        (String.intercalate "\n" (steps.map Step.message)) devs ∧
      (twoConditions true true).execute quietEnv []
        = (.returned none, steps.map (Step.fetched (twoConditions true true)) ++ devs) :=
  execute_singlePost_dispatch quietEnv [] (twoConditions true true) rfl (by decide)
    (quiet_run_fine true true)

/-- The description of per-condition mode applies to the run of two conditions
against a backend that finds nothing and a webhook that answers. -/
theorem execute_perCondition_dispatch_witness :
    ∃ steps : List (Step × List Event),
      List.Forall₂ (fun v sb => Step.of (twoConditions false false) v sb.1 ∧
          isDispatch (twoConditions false false) sb.1.message sb.2)
        ((twoConditions false false).searchConditions.getD []) steps ∧
      (twoConditions false false).execute quietEnv []
        = (.returned none,
           (steps.map (fun sb => sb.1.fetched (twoConditions false false) :: sb.2)).flatten) :=
  execute_perCondition_dispatch quietEnv [] (twoConditions false false) rfl (by decide)
    (quiet_run_fine false false)

/-- C7 fails on the code: in combined mode the ticket backend answers without
error and hands back an issue whose assignee has no name; `buildPost`
dereferences the nil `Name` and the run panics with nothing dispatched, where
the claim has exactly one dispatch.  That is so when the issue comes with the
first answer, and also when it comes with the last one, after both fetches
have been made and have succeeded. -/
theorem execute_singlePost_nameless :
    (twoConditions true true).buildPost [some namelessIssue] "first" = none ∧
    (twoConditions true true).execute namelessEnv [] =
      (.panicked,
       [Event.getIssues { apiKey := "dummy", baseUrl := "https://backlog.example.com" }
          { emptyFilter with DueDateUntil := some "2000-01-04" } [some namelessIssue] none]) ∧
    (twoConditions true true).execute namelessLaterEnv [] =
      (.panicked,
       [Event.getIssues { apiKey := "dummy", baseUrl := "https://backlog.example.com" }
          { emptyFilter with DueDateUntil := some "2000-01-04" } [] none,
        Event.getIssues { apiKey := "dummy", baseUrl := "https://backlog.example.com" }
          { emptyFilter with DueDateUntil := some "2000-01-04" } [some namelessIssue] none]) := by
  decide

/-- C8 fails on the code: in per-condition mode, with every fetch succeeding,
the second fetch hands back an issue whose assignee has no name; the run
panics in `buildPost` after the second fetch, so that one message has been
dispatched, where the claim has two. -/
theorem execute_perCondition_nameless :
    (twoConditions false true).execute namelessLaterEnv [] =
      (.panicked,
       [Event.getIssues { apiKey := "dummy", baseUrl := "https://backlog.example.com" }
          { emptyFilter with DueDateUntil := some "2000-01-04" } [] none,
        Event.stdout "first\n```\n```\n",
        Event.getIssues { apiKey := "dummy", baseUrl := "https://backlog.example.com" }
          { emptyFilter with DueDateUntil := some "2000-01-04" } [some namelessIssue] none]) := by
  decide

/-- C9 fails on the code: with a chat webhook that cannot be reached,
`slackClient.post` returns the error, `Client.post` drops it, and `execute`
returns nil.  In per-condition mode the second condition is still fetched and
dispatched after the first dispatch failed; in combined mode the failed final
dispatch leaves the returned error nil. -/
theorem execute_drops_dispatch_error :
    ((twoConditions false false).slackClient.post unreachableSlackEnv [] "first\n```\n```").1
      = some (Error.other "dial tcp: connection refused") ∧
    (twoConditions false false).execute unreachableSlackEnv [] =
      (.returned none,
       [Event.getIssues { apiKey := "dummy", baseUrl := "https://backlog.example.com" }
          { emptyFilter with DueDateUntil := some "2000-01-04" } [] none,
        Event.postForm "https://slack.example.com"
          { Text := "first\n```\n```", Username := "Backlog-bot", IconEmoji := "",
            IconURL := "", Channel := "test-channel" }
          "" (some (Error.other "dial tcp: connection refused")),
        Event.getIssues { apiKey := "dummy", baseUrl := "https://backlog.example.com" }
          { emptyFilter with DueDateUntil := some "2000-01-04" } [] none,
        Event.postForm "https://slack.example.com"
          { Text := "second\n```\n```", Username := "Backlog-bot", IconEmoji := "",
            IconURL := "", Channel := "test-channel" }
          "" (some (Error.other "dial tcp: connection refused"))]) ∧
    (twoConditions true false).execute unreachableSlackEnv [] =
      (.returned none,
       [Event.getIssues { apiKey := "dummy", baseUrl := "https://backlog.example.com" }
          { emptyFilter with DueDateUntil := some "2000-01-04" } [] none,
        Event.getIssues { apiKey := "dummy", baseUrl := "https://backlog.example.com" }
          { emptyFilter with DueDateUntil := some "2000-01-04" } [] none,
        Event.postForm "https://slack.example.com"
          { Text := "first\n```\n```\nsecond\n```\n```", Username := "Backlog-bot",
            IconEmoji := "", IconURL := "", Channel := "test-channel" }
          "" (some (Error.other "dial tcp: connection refused"))]) := by
  decide

/-- C10. `fetchIssues` with a nil filter returns `ErrNoCondition` and sends no
query; with a filter it sends exactly one query to the ticket backend, and
returns the backend's error as it is when there is one, and otherwise the
backend's list of issues as it is. -/
theorem fetchIssues_contract (env : Env) (h : List Event) (cl : Client) :
    cl.fetchIssues env h none = (.error ErrNoCondition, []) ∧
    ∀ c : GetIssuesOptions,
      (cl.fetchIssues env h (some c)).2
        = [Event.getIssues cl.backlogClient (withDueDate cl c)
            (env.GetIssues h cl.backlogClient (withDueDate cl c)).1
            (env.GetIssues h cl.backlogClient (withDueDate cl c)).2] ∧
      (∀ e, (env.GetIssues h cl.backlogClient (withDueDate cl c)).2 = some e →
        (cl.fetchIssues env h (some c)).1 = .error e) ∧
      ((env.GetIssues h cl.backlogClient (withDueDate cl c)).2 = none →
        (cl.fetchIssues env h (some c)).1
          = .ok (env.GetIssues h cl.backlogClient (withDueDate cl c)).1) := by
  refine ⟨rfl, ?_⟩
  intro c
  unfold Client.fetchIssues
  simp only []
  cases hr : (env.GetIssues h cl.backlogClient (withDueDate cl c)).2 with
  | none => exact ⟨rfl, fun e he => (by cases he), fun _ => rfl⟩
  | some e0 => exact ⟨rfl, fun e he => (by cases he; rfl), fun he => (by cases he)⟩

/-! ## Claims about `buildPost` -/

theorem buildPostLoop_eq (baseUrl : String) :
    ∀ (issues : List (Option Issue)) (i : Nat) (msg : List String), i ≤ 10 →
      buildPostLoop baseUrl i issues msg
        = (bodyLines baseUrl (issues.take (10 - i))).map
            (fun body => msg ++ body ++
              (if issues.length > 10 - i then ["and more..."] else [])) := by
  intro issues
  induction issues with
  | nil =>
    intro i msg _
    simp [buildPostLoop, bodyLines]
  | cons v rest ih =>
    intro i msg hi
    by_cases h10 : i ≥ 10
    · have : 10 - i = 0 := by omega
      simp [buildPostLoop, bodyLines, h10, this]
    · have hlt : i + 1 ≤ 10 := by omega
      have htake : (v :: rest).take (10 - i) = v :: rest.take (10 - (i + 1)) := by
        have : 10 - i = (10 - (i + 1)) + 1 := by omega
        rw [this, List.take_succ_cons]
      have hlen : ((v :: rest).length > 10 - i) ↔ (rest.length > 10 - (i + 1)) := by
        simp only [List.length_cons]
        omega
      have hif : (if (v :: rest).length > 10 - i then ["and more..."] else ([] : List String))
          = (if rest.length > 10 - (i + 1) then ["and more..."] else []) := if_congr hlen rfl rfl
      rw [htake, hif]
      unfold buildPostLoop
      rw [if_neg h10]
      cases v with
      | none =>
        simp only [bodyLines, issueLines]
        rw [ih (i + 1) msg hlt]
        cases bodyLines baseUrl (rest.take (10 - (i + 1))) with
        | none => rfl
        | some b => simp
      | some v =>
        cases hA : v.Assignee with
        | none =>
          simp only [bodyLines, issueLines, hA]
          rw [ih (i + 1) _ hlt]
          cases bodyLines baseUrl (rest.take (10 - (i + 1))) with
          | none => rfl
          | some b =>
            cases v.IssueKey <;> cases v.Summary <;> simp
        | some a =>
          cases hN : a.Name with
          | none =>
            simp [bodyLines, issueLines, hA, hN]
          | some n =>
            simp only [bodyLines, issueLines, hA, hN]
            rw [ih (i + 1) _ hlt]
            cases bodyLines baseUrl (rest.take (10 - (i + 1))) with
            | none => rfl
            | some b =>
              cases v.IssueKey <;> cases v.Summary <;> simp

/-- What `buildPost` returns, for every list and label. -/
theorem buildPost_eq (cl : Client) (issues : List (Option Issue)) (name : String) :
    cl.buildPost issues name
      = (bodyLines cl.backlogBaseUrl (issues.take 10)).map
          (fun body => String.intercalate "\n"
            (headLines name ++ body ++
              (if issues.length > 10 then ["and more..."] else []) ++ ["```"])) := by
  unfold Client.buildPost
  simp only []
  rw [buildPostLoop_eq cl.backlogBaseUrl issues 0 _ (by omega)]
  cases bodyLines cl.backlogBaseUrl (issues.take (10 - 0)) with
  | none => rfl
  | some b => rfl


theorem bodyLines_filter (baseUrl : String) (issues : List (Option Issue)) :
    bodyLines baseUrl (issues.filter Option.isSome) = bodyLines baseUrl issues := by
  induction issues with
  | nil => rfl
  | cons v rest ih =>
    cases v with
    | none =>
      simp only [List.filter, Option.isSome, bodyLines, issueLines]
      rw [ih]
      cases bodyLines baseUrl rest <;> simp
    | some v =>
      simp only [List.filter, Option.isSome, bodyLines]
      rw [ih]

theorem bodyLines_named (baseUrl : String) (issues : List (Option Issue))
    (h : allNamed issues) :
    bodyLines baseUrl issues = some ((issues.map (fun v =>
      match v with
      | none => []
      | some v =>
        (match v.IssueKey with
          | some key => [baseUrl ++ "/view/" ++ key]
          | none => []) ++
        (match v.Summary with
          | some summary => [summary]
          | none => []) ++
        (match v.Assignee with
          | some a => [a.Name.getD ""]
          | none => []) ++
        [""])).flatten) := by
  induction issues with
  | nil => rfl
  | cons v rest ih =>
    have hrest : allNamed rest := fun w a hw ha => h w a (List.mem_cons_of_mem _ hw) ha
    simp only [bodyLines, ih hrest, List.map_cons, List.flatten_cons]
    cases v with
    | none => simp [issueLines]
    | some v =>
      cases hA : v.Assignee with
      | none => simp [issueLines, hA]
      | some a =>
        cases hN : a.Name with
        | none => exact absurd hN (h v a (List.mem_cons_self _ _) hA)
        | some n => simp [issueLines, hA, hN]

/-- `buildPost` panics exactly when one of the first ten entries is an issue
whose assignee is there without a name. -/
theorem buildPost_none_iff (cl : Client) (issues : List (Option Issue)) (name : String) :
    cl.buildPost issues name = none ↔
      ∃ v a, some v ∈ issues.take 10 ∧ v.Assignee = some a ∧ a.Name = none := by
  rw [buildPost_eq]
  have key : ∀ l : List (Option Issue), bodyLines cl.backlogBaseUrl l = none ↔
      ∃ v a, some v ∈ l ∧ v.Assignee = some a ∧ a.Name = none := by
    intro l
    induction l with
    | nil => simp [bodyLines]
    | cons w rest ih =>
      cases hw : issueLines cl.backlogBaseUrl w with
      | none =>
        have hex : ∃ v a, w = some v ∧ v.Assignee = some a ∧ a.Name = none := by
          cases w with
          | none => simp [issueLines] at hw
          | some v =>
            cases hA : v.Assignee with
            | none => simp [issueLines, hA] at hw
            | some a =>
              cases hN : a.Name with
              | none => exact ⟨v, a, rfl, hA, hN⟩
              | some n => simp [issueLines, hA, hN] at hw
        obtain ⟨v, a, hv, hA, hN⟩ := hex
        simp only [bodyLines, hw, true_iff]
        exact ⟨v, a, by rw [hv]; exact List.mem_cons_self _ _, hA, hN⟩
      | some lines =>
        have hno : ∀ v a, w = some v → v.Assignee = some a → a.Name ≠ none := by
          intro v a hv hA hN
          rw [hv] at hw
          simp [issueLines, hA, hN] at hw
        simp only [bodyLines, hw]
        constructor
        · intro hnone
          have hr : bodyLines cl.backlogBaseUrl rest = none := by
            cases hb : bodyLines cl.backlogBaseUrl rest with
            | none => rfl
            | some b => rw [hb] at hnone; cases hnone
          obtain ⟨v, a, hv, hA, hN⟩ := ih.mp hr
          exact ⟨v, a, List.mem_cons_of_mem _ hv, hA, hN⟩
        · rintro ⟨v, a, hv, hA, hN⟩
          rcases List.mem_cons.mp hv with hv | hv
          · exact absurd hN (hno v a hv.symm hA)
          · rw [ih.mpr ⟨v, a, hv, hA, hN⟩]
  rw [← key (issues.take 10)]
  cases bodyLines cl.backlogBaseUrl (issues.take 10) <;> simp



/-- What `buildPost` returns for a list of at most ten entries. -/
theorem buildPost_short (cl : Client) (issues : List (Option Issue)) (name : String)
    (hl : issues.length ≤ 10) :
    cl.buildPost issues name = (bodyLines cl.backlogBaseUrl issues).map
      (fun body => String.intercalate "\n" (headLines name ++ body ++ ["```"])) := by
  rw [buildPost_eq, List.take_of_length_le hl, if_neg (by omega)]
  cases bodyLines cl.backlogBaseUrl issues <;> simp

/-- C12. For a list of more than ten entries `buildPost` returns what it returns
for the first ten entries alone with the one line `and more...` put in right
before the closing fence (and it panics exactly when it panics on the first
ten); nothing of the eleventh or a later entry gets into the result, which is
the same for all lists that agree on the first ten entries.  For a list of at
most ten entries the result is the head lines, the lines of the entries and
the closing fence, with no such line added. -/
theorem buildPost_cap (cl : Client) (issues : List (Option Issue)) (name : String) :
    (10 < issues.length →
      (bodyLines cl.backlogBaseUrl (issues.take 10) = none ∧
        cl.buildPost (issues.take 10) name = none ∧ cl.buildPost issues name = none) ∨
      (∃ body, bodyLines cl.backlogBaseUrl (issues.take 10) = some body ∧
        cl.buildPost (issues.take 10) name
          = some (String.intercalate "\n" (headLines name ++ body ++ ["```"])) ∧
        cl.buildPost issues name
          = some (String.intercalate "\n"
              (headLines name ++ body ++ ["and more..."] ++ ["```"])))) ∧
    (10 < issues.length → ∀ others : List (Option Issue), 10 < others.length →
      others.take 10 = issues.take 10 → cl.buildPost others name = cl.buildPost issues name) ∧
    (issues.length ≤ 10 →
      cl.buildPost issues name = (bodyLines cl.backlogBaseUrl issues).map
        (fun body => String.intercalate "\n" (headLines name ++ body ++ ["```"]))) ∧
    cl.buildPost (List.replicate 11 (some bareIssue)) ""
      = some "```\n\n\n\n\n\n\n\n\n\n\nand more...\n```" ∧
    cl.buildPost (List.replicate 10 (some bareIssue) ++ [some namelessIssue]) ""
      = some "```\n\n\n\n\n\n\n\n\n\n\nand more...\n```" ∧
    cl.buildPost (List.replicate 10 (some bareIssue)) ""
      = some "```\n\n\n\n\n\n\n\n\n\n\n```" := by
  have hshort : ∀ l : List (Option Issue), l.length ≤ 10 →
      cl.buildPost l name = (bodyLines cl.backlogBaseUrl l).map
        (fun body => String.intercalate "\n" (headLines name ++ body ++ ["```"])) := by
    intro l hl
    rw [buildPost_eq, List.take_of_length_le hl, if_neg (by omega)]
    cases bodyLines cl.backlogBaseUrl l <;> simp
  have hlong : ∀ l : List (Option Issue), 10 < l.length →
      cl.buildPost l name = (bodyLines cl.backlogBaseUrl (l.take 10)).map
        (fun body => String.intercalate "\n"
          (headLines name ++ body ++ ["and more..."] ++ ["```"])) := by
    intro l hl
    rw [buildPost_eq, if_pos hl]
  refine ⟨?_, ?_, hshort issues, ?_, ?_, ?_⟩
  · intro hl
    have h10 : (issues.take 10).length ≤ 10 := by simp
    rw [hshort _ h10, hlong _ hl]
    cases hb : bodyLines cl.backlogBaseUrl (issues.take 10) with
    | none => exact Or.inl ⟨rfl, rfl, rfl⟩
    | some body => exact Or.inr ⟨body, rfl, rfl, rfl⟩
  · intro hl others ho htake
    rw [hlong _ hl, hlong _ ho, htake]
  · rw [buildPost_eq]
    rfl
  · rw [buildPost_eq]
    rfl
  · rw [buildPost_eq]
    rfl

/-- C13 fails on the code: for a list of two issues, the second with an
assignee record that has no name, the specification's lines exist (with an
empty line for the missing name), but `buildPost` dereferences the nil `Name`
and panics instead of returning them. -/
theorem buildPost_lines_nameless :
    [some fullIssue, some namelessIssue].length ≤ 10 ∧
    specLines "https://backlog.example.com" [some fullIssue, some namelessIssue] "due"
      = ["due", "```", "https://backlog.example.com/view/PRJ-7", "write the report", "Hanako",
         "", "https://backlog.example.com/view/PRJ-1", "fix the build", "", "", "```"] ∧
    (twoConditions true true).buildPost [some fullIssue, some namelessIssue] "due" = none := by
  decide

/-- For a list of at most ten entries in which every assignee has a name,
`buildPost` returns the lines of the specification joined by newlines. -/
theorem buildPost_lines (cl : Client) (issues : List (Option Issue)) (name : String)
    (hlen : issues.length ≤ 10) (hnamed : allNamed issues) :
    cl.buildPost issues name
      = some (String.intercalate "\n" (specLines cl.backlogBaseUrl issues name)) := by
  rw [buildPost_eq, List.take_of_length_le hlen, if_neg (by omega),
    bodyLines_named _ _ hnamed]
  unfold specLines headLines
  by_cases hn : name = ""
  · simp [hn]
  · simp [hn]

/-- The lines of the specification for an empty list, with and without a
label, and for three entries of which one is nil and one has no field. -/
theorem buildPost_lines_witness :
    ([] : List (Option Issue)).length ≤ 10 ∧ allNamed [] ∧
    (twoConditions true true).buildPost [] "" = some "```\n```" ∧
    (twoConditions true true).buildPost [] "due" = some "due\n```\n```" ∧
    (twoConditions true true).buildPost [some fullIssue, none, some bareIssue] "due"
      = some "due\n```\nhttps://backlog.example.com/view/PRJ-7\nwrite the report\nHanako\n\n\n```" :=
  ⟨by decide, fun _ _ h => absurd h (List.not_mem_nil _),
   buildPost_lines (twoConditions true true) [] "" (by decide)
     (fun _ _ h => absurd h (List.not_mem_nil _)),
   buildPost_lines (twoConditions true true) [] "due" (by decide)
     (fun _ _ h => absurd h (List.not_mem_nil _)),
   by decide⟩

/-- C14 fails as written: a list of eleven entries whose first entry is nil
gives nine issues and the line `and more...`, while the same list without the
nil entry has ten entries and gives ten issues and no such line. -/
theorem buildPost_nil_counterexample :
    (twoConditions true true).buildPost (none :: List.replicate 10 (some bareIssue)) ""
      = some "```\n\n\n\n\n\n\n\n\n\nand more...\n```" ∧
    (none :: List.replicate 10 (some bareIssue)).filter Option.isSome
      = List.replicate 10 (some bareIssue) ∧
    (twoConditions true true).buildPost
        ((none :: List.replicate 10 (some bareIssue)).filter Option.isSome) ""
      = some "```\n\n\n\n\n\n\n\n\n\n\n```" ∧
    (twoConditions true true).buildPost (none :: List.replicate 10 (some bareIssue)) ""
      ≠ (twoConditions true true).buildPost
          ((none :: List.replicate 10 (some bareIssue)).filter Option.isSome) "" := by
  decide

/-- C14 as amended: in a list of at most ten entries the nil entries add
nothing, the result is that for the list without them; in a longer list the
nil entries among the first ten add no line either, but they count among the
ten: the result is that for the first ten entries without their nil entries,
with the line `and more...` before the closing fence. -/
theorem buildPost_skips_nil (cl : Client) (issues : List (Option Issue)) (name : String) :
    (issues.length ≤ 10 →
      cl.buildPost issues name = cl.buildPost (issues.filter Option.isSome) name) ∧
    (10 < issues.length →
      cl.buildPost issues name
        = (bodyLines cl.backlogBaseUrl ((issues.take 10).filter Option.isSome)).map
            (fun body => String.intercalate "\n"
              (headLines name ++ body ++ ["and more..."] ++ ["```"])) ∧
      cl.buildPost ((issues.take 10).filter Option.isSome) name
        = (bodyLines cl.backlogBaseUrl ((issues.take 10).filter Option.isSome)).map
            (fun body => String.intercalate "\n" (headLines name ++ body ++ ["```"]))) := by
  have hshort : ∀ l : List (Option Issue), l.length ≤ 10 →
      cl.buildPost l name = (bodyLines cl.backlogBaseUrl l).map
        (fun body => String.intercalate "\n" (headLines name ++ body ++ ["```"])) :=
    fun l hl => buildPost_short cl l name hl
  constructor
  · intro hl
    have hf : (issues.filter Option.isSome).length ≤ 10 :=
      Nat.le_trans (List.length_filter_le _ _) hl
    rw [hshort _ hl, hshort _ hf, bodyLines_filter]
  · intro hl
    have hf : ((issues.take 10).filter Option.isSome).length ≤ 10 :=
      Nat.le_trans (List.length_filter_le _ _) (by simp)
    refine ⟨?_, hshort _ hf⟩
    rw [buildPost_eq, if_pos hl, bodyLines_filter]

/-- C14 as amended, at a list of three entries with a nil entry in the middle
and at the list of eleven entries that starts with a nil entry. -/
theorem buildPost_skips_nil_witness :
    [some fullIssue, none, some bareIssue].length ≤ 10 ∧
    (twoConditions true true).buildPost [some fullIssue, none, some bareIssue] "due"
      = (twoConditions true true).buildPost
          ([some fullIssue, none, some bareIssue].filter Option.isSome) "due" ∧
    10 < (none :: List.replicate 10 (some bareIssue)).length ∧
    (twoConditions true true).buildPost (none :: List.replicate 10 (some bareIssue)) ""
      = (bodyLines (twoConditions true true).backlogBaseUrl
          (((none :: List.replicate 10 (some bareIssue)).take 10).filter Option.isSome)).map
            (fun body => String.intercalate "\n"
              (headLines "" ++ body ++ ["and more..."] ++ ["```"])) :=
  ⟨by decide,
   (buildPost_skips_nil (twoConditions true true) [some fullIssue, none, some bareIssue]
     "due").1 (by decide),
   by decide,
   ((buildPost_skips_nil (twoConditions true true) (none :: List.replicate 10 (some bareIssue))
     "").2 (by decide)).1⟩

/-- C15 fails on the code: nil entries and issues without key, summary or
assignee are passed over and a string is returned, but for an issue whose
assignee record is there without a name `buildPost` dereferences the nil
`Name` and panics, whatever the client and the label. -/
theorem buildPost_panics_on_nameless (cl : Client) (name : String) :
    cl.buildPost [none, some bareIssue] "" = some "```\n\n```" ∧
    cl.buildPost [some { IssueKey := none, Summary := none, Assignee := some { Name := none } }]
      name = none ∧
    cl.buildPost [some namelessIssue] name = none := by
  refine ⟨by rw [buildPost_eq]; rfl, ?_, ?_⟩
  · rw [buildPost_none_iff]
    exact ⟨_, _, List.mem_cons_self _ _, rfl, rfl⟩
  · rw [buildPost_none_iff]
    exact ⟨_, _, List.mem_cons_self _ _, rfl, rfl⟩

/-- C19. The ten of `buildPost` counts places in the list: what is rendered are
the entries that are not nil among the first ten places, in their order, and
the line `and more...` stands before the closing fence exactly when the list
has more than ten entries.  So ten nil entries followed by an issue give the
head lines, `and more...` and the closing fence, and the issue is not
rendered. -/
theorem buildPost_counts_positions (cl : Client) (issues : List (Option Issue))
    (name : String) :
    cl.buildPost issues name
      = (bodyLines cl.backlogBaseUrl ((issues.take 10).filter Option.isSome)).map
          (fun body => String.intercalate "\n"
            (headLines name ++ body ++
              (if 10 < issues.length then ["and more..."] else []) ++ ["```"])) ∧
    (∀ x : Issue, cl.buildPost (List.replicate 10 none ++ [some x]) name
      = some (String.intercalate "\n" (headLines name ++ ["and more..."] ++ ["```"]))) ∧
    cl.buildPost (List.replicate 10 none ++ [some fullIssue]) ""
      = some "```\nand more...\n```" ∧
    cl.buildPost (List.replicate 10 none ++ [some fullIssue]) "due"
      = some "due\n```\nand more...\n```" ∧
    cl.buildPost (List.replicate 9 none ++ [some bareIssue, some fullIssue]) ""
      = some "```\n\nand more...\n```" := by
  have h := buildPost_eq cl
  refine ⟨?_, ?_, ?_, ?_, ?_⟩
  · rw [h, bodyLines_filter]
  · intro x
    rw [h]
    simp [bodyLines, issueLines]
  · rw [h]
    rfl
  · rw [h]
    rfl
  · rw [h]
    rfl

/-! ## Further claims about `newClient`, `fetchIssues` and `execute` -/

theorem newClient_ok_required (opts : ClientOption) (t : Time) (cl : Client)
    (h : newClient opts t = .ok cl) : requiredPresent opts := by
  unfold newClient at h
  by_cases h1 : opts.BacklogApiKey = ""
  · rw [if_pos h1] at h
    cases h
  by_cases h2 : opts.BacklogBaseUrl = ""
  · rw [if_neg h1, if_pos h2] at h
    cases h
  by_cases h3 : opts.SlackWebhookUrl = ""
  · rw [if_neg h1, if_neg h2, if_pos h3] at h
    cases h
  by_cases h4 : opts.SlackChannel = ""
  · rw [if_neg h1, if_neg h2, if_neg h3, if_pos h4] at h
    cases h
  by_cases h5 : opts.SearchConditions = none
  · rw [if_neg h1, if_neg h2, if_neg h3, if_neg h4, if_pos h5] at h
    cases h
  exact ⟨h1, h2, h3, h4, h5⟩

theorem newClient_ok_fields (opts : ClientOption) (t : Time) (cl : Client)
    (hcl : newClient opts t = .ok cl) :
    requiredPresent opts ∧
    dueDate opts.BacklogDueDate t = .ok cl.backlogDueDate ∧
    cl.backlogBaseUrl = opts.BacklogBaseUrl ∧
    cl.searchConditions = opts.SearchConditions ∧
    cl.isSinglePost = opts.IsSinglePost ∧
    cl.dryRun = opts.DryRun ∧
    cl.backlogClient = { apiKey := opts.BacklogApiKey, baseUrl := opts.BacklogBaseUrl } ∧
    cl.slackClient.url = opts.SlackWebhookUrl ∧
    cl.slackClient.params.Channel = opts.SlackChannel ∧
    cl.slackClient.params.IconEmoji = opts.SlackIconEmoji ∧
    cl.slackClient.params.IconURL = opts.SlackIconUrl ∧
    cl.slackClient.params.Username
      = (if opts.SlackAccountName = "" then "Backlog-bot" else opts.SlackAccountName) := by
  have hreq := newClient_ok_required opts t cl hcl
  rw [newClient_of_required opts t hreq] at hcl
  cases hd : dueDate opts.BacklogDueDate t with
  | error e =>
    rw [hd] at hcl
    cases hcl
  | ok dd =>
    rw [hd] at hcl
    cases hcl
    exact ⟨hreq, rfl, rfl, rfl, rfl, rfl, rfl, rfl, rfl, rfl, rfl, rfl⟩

/-- C18. When `newClient` succeeds, the required options are present, the due
date of the client is the one resolved from the specification and the
reference time, the base URL, the search conditions, `isSinglePost` and
`dryRun` are those of the options, and the chat client has the webhook URL,
the channel, the icon emoji and the icon URL of the options and as sender name
the account name of the options, or `Backlog-bot` when that is empty; and
`newClient` does succeed whenever the required options are present and the due
date resolves. -/
theorem newClient_fields (opts : ClientOption) (t : Time) :
    (∀ cl, newClient opts t = .ok cl →
      requiredPresent opts ∧
      dueDate opts.BacklogDueDate t = .ok cl.backlogDueDate ∧
      cl.backlogBaseUrl = opts.BacklogBaseUrl ∧
      cl.searchConditions = opts.SearchConditions ∧
      cl.isSinglePost = opts.IsSinglePost ∧
      cl.dryRun = opts.DryRun ∧
      cl.backlogClient = { apiKey := opts.BacklogApiKey, baseUrl := opts.BacklogBaseUrl } ∧
      cl.slackClient.url = opts.SlackWebhookUrl ∧
      cl.slackClient.params.Channel = opts.SlackChannel ∧
      cl.slackClient.params.IconEmoji = opts.SlackIconEmoji ∧
      cl.slackClient.params.IconURL = opts.SlackIconUrl ∧
      cl.slackClient.params.Username
        = (if opts.SlackAccountName = "" then "Backlog-bot" else opts.SlackAccountName)) ∧
    (requiredPresent opts → ∀ dd, dueDate opts.BacklogDueDate t = .ok dd →
      ∃ cl, newClient opts t = .ok cl ∧ cl.backlogDueDate = dd) ∧
    (∃ cl, newClient (testOpts "weekend") (utc 2000 1 1) = .ok cl ∧
      cl.backlogDueDate = "2000-01-01" ∧ cl.slackClient.params.Username = "test-slack-bot") ∧
    (∃ cl, newClient { testOpts "3" with SlackAccountName := "" } (utc 2000 1 1) = .ok cl ∧
      cl.backlogDueDate = "2000-01-04" ∧ cl.slackClient.params.Username = "Backlog-bot") := by
  refine ⟨fun cl hcl => newClient_ok_fields opts t cl hcl,
    fun hreq dd hdd => newClient_ok_of_dueDate opts t hreq dd hdd, ?_, ?_⟩
  · obtain ⟨cl, hcl, hdd⟩ := newClient_ok_of_dueDate (testOpts "weekend") (utc 2000 1 1)
      (by decide) "2000-01-01" (by decide)
    exact ⟨cl, hcl, hdd, (newClient_ok_fields _ _ cl hcl).2.2.2.2.2.2.2.2.2.2.2⟩
  · obtain ⟨cl, hcl, hdd⟩ := newClient_ok_of_dueDate
      { testOpts "3" with SlackAccountName := "" } (utc 2000 1 1) (by decide) "2000-01-04"
      (by decide)
    exact ⟨cl, hcl, hdd, (newClient_ok_fields _ _ cl hcl).2.2.2.2.2.2.2.2.2.2.2⟩

/-- C18, at the options of the package's test. -/
theorem newClient_fields_witness :
    requiredPresent (testOpts "end_of_month") ∧
    dueDate (testOpts "end_of_month").BacklogDueDate (utc 2000 2 1) = .ok "2000-02-29" ∧
    ∃ cl, newClient (testOpts "end_of_month") (utc 2000 2 1) = .ok cl ∧
      cl.backlogDueDate = "2000-02-29" :=
  ⟨by decide, by decide!,
   (newClient_fields (testOpts "end_of_month") (utc 2000 2 1)).2.1 (by decide) "2000-02-29"
     (by decide!)⟩

theorem executeLoop_queries (env : Env) (cl : Client) :
    ∀ (conds : List SearchCondition) (posts : List String) (h : List Event)
      (bc : BacklogClient) (q : GetIssuesOptions) (issues : List (Option Issue))
      (err : Option Error),
      Event.getIssues bc q issues err ∈ (executeLoop env cl conds posts h).2 →
      bc = cl.backlogClient ∧
        ∃ v c, v ∈ conds ∧ v.Condition = some c ∧ q = withDueDate cl c := by
  intro conds
  induction conds with
  | nil =>
    intro posts h bc q issues err hmem
    simp [executeLoop] at hmem
  | cons v rest ih =>
    intro posts h bc q issues err hmem
    have hfetch : ∀ ev ∈ (cl.fetchIssues env h v.Condition).2,
        ev = Event.getIssues bc q issues err →
        bc = cl.backlogClient ∧ ∃ c, v.Condition = some c ∧ q = withDueDate cl c := by
      intro ev hev heq
      cases hc : v.Condition with
      | none =>
        rw [hc] at hev
        simp [Client.fetchIssues] at hev
      | some c =>
        rw [hc] at hev
        unfold Client.fetchIssues at hev
        simp only [] at hev
        split at hev <;>
        · rw [List.mem_singleton] at hev
          rw [hev] at heq
          cases heq
          exact ⟨rfl, c, rfl, rfl⟩
    have hrest : ∀ posts h, Event.getIssues bc q issues err ∈ (executeLoop env cl rest posts h).2 →
        bc = cl.backlogClient ∧
          ∃ w c, w ∈ v :: rest ∧ w.Condition = some c ∧ q = withDueDate cl c := by
      intro posts h hm
      obtain ⟨hb, w, c, hw, hwc, hq⟩ := ih posts h bc q issues err hm
      exact ⟨hb, w, c, List.mem_cons_of_mem _ hw, hwc, hq⟩
    have hhead : Event.getIssues bc q issues err ∈ (cl.fetchIssues env h v.Condition).2 →
        bc = cl.backlogClient ∧
          ∃ w c, w ∈ v :: rest ∧ w.Condition = some c ∧ q = withDueDate cl c := by
      intro hm
      obtain ⟨hb, c, hc, hq⟩ := hfetch _ hm rfl
      exact ⟨hb, v, c, List.mem_cons_self _ _, hc, hq⟩
    rw [executeLoop] at hmem
    rcases hf : cl.fetchIssues env h v.Condition with ⟨res, ev⟩
    rw [hf] at hmem hhead
    cases res with
    | error e => exact hhead hmem
    | ok iss =>
      simp only [] at hmem
      cases hb : cl.buildPost iss v.Name with
      | none =>
        rw [hb] at hmem
        exact hhead hmem
      | some p =>
        rw [hb] at hmem
        simp only [] at hmem
        split at hmem
        · rcases List.mem_append.mp hmem with hm | hm
          · exact hhead hm
          · exact hrest _ _ hm
        · rcases List.mem_append.mp hmem with hm | hm
          · rcases List.mem_append.mp hm with hm | hm
            · exact hhead hm
            · exact absurd hm (post_no_query env _ cl p bc q issues err)
          · exact hrest _ _ hm

theorem execute_queries (env : Env) (h : List Event) (cl : Client)
    (bc : BacklogClient) (q : GetIssuesOptions) (issues : List (Option Issue))
    (err : Option Error)
    (hmem : Event.getIssues bc q issues err ∈ (cl.execute env h).2) :
    bc = cl.backlogClient ∧
      ∃ v c, v ∈ cl.searchConditions.getD [] ∧ v.Condition = some c ∧ q = withDueDate cl c := by
  apply executeLoop_queries env cl (cl.searchConditions.getD []) [] h bc q issues err
  unfold Client.execute at hmem
  rcases hl : executeLoop env cl (cl.searchConditions.getD []) [] h with ⟨res, ev⟩
  rw [hl] at hmem
  cases res with
  | error o => exact hmem
  | ok posts =>
    simp only [] at hmem
    split at hmem
    · rcases List.mem_append.mp hmem with hm | hm
      · exact hm
      · exact absurd hm (post_no_query env _ cl _ bc q issues err)
    · exact hmem

/-- C16. The query `fetchIssues` sends for a filter has the filter's own
`DueDateUntil` when that is set and the due date of the client when it is not,
and every other field as in the filter.  In a run of `Post` every query sent
comes from one of the search conditions of the options, with the one due date
resolved by `newClient` put in where the filter has none. -/
theorem fetchIssues_due_date (env : Env) (h : List Event) :
    (∀ (cl : Client) (c : GetIssuesOptions),
      (∃ issues err, (cl.fetchIssues env h (some c)).2
        = [Event.getIssues cl.backlogClient (withDueDate cl c) issues err]) ∧
      (∀ d, c.DueDateUntil = some d → (withDueDate cl c).DueDateUntil = some d) ∧
      (c.DueDateUntil = none → (withDueDate cl c).DueDateUntil = some cl.backlogDueDate) ∧
      (withDueDate cl c).ProjectIDs = c.ProjectIDs ∧
      (withDueDate cl c).CategoryIDs = c.CategoryIDs ∧
      (withDueDate cl c).StatusIDs = c.StatusIDs ∧
      (withDueDate cl c).Rest = c.Rest) ∧
    (∀ (opts : ClientOption) (t : Time) (bc : BacklogClient) (q : GetIssuesOptions)
        (issues : List (Option Issue)) (err : Option Error),
      Event.getIssues bc q issues err ∈ (Post env h opts t).2 →
      ∃ dd, dueDate opts.BacklogDueDate t = .ok dd ∧
        ∃ v c, v ∈ opts.SearchConditions.getD [] ∧ v.Condition = some c ∧
          q = { c with DueDateUntil := some (c.DueDateUntil.getD dd) }) := by
  constructor
  · intro cl c
    refine ⟨?_, ?_, ?_, ?_, ?_, ?_, ?_⟩
    · unfold Client.fetchIssues
      simp only []
      split <;> exact ⟨_, _, rfl⟩
    · intro d hd
      unfold withDueDate
      rw [if_neg (by rw [hd]; exact Option.some_ne_none d), hd]
    · intro hd
      unfold withDueDate
      rw [if_pos hd]
    all_goals
      unfold withDueDate
      split <;> rfl
  · intro opts t bc q issues err hmem
    unfold Post at hmem
    cases hn : newClient opts t with
    | error e =>
      rw [hn] at hmem
      simp at hmem
    | ok cl =>
      rw [hn] at hmem
      simp only [] at hmem
      obtain ⟨-, hdd, -, hsc, -⟩ := newClient_ok_fields opts t cl hn
      obtain ⟨-, v, c, hv, hc, hq⟩ := execute_queries env h cl bc q issues err hmem
      refine ⟨cl.backlogDueDate, hdd, v, c, by rw [← hsc]; exact hv, hc, ?_⟩
      rw [hq]
      unfold withDueDate
      cases hd : c.DueDateUntil with
      | none => simp
      | some d =>
        simp
        cases c
        simp at hd
        simp [hd]

theorem executeLoop_append (env : Env) (cl : Client) :
    ∀ (pre rest : List SearchCondition) (posts : List String) (h : List Event),
      executeLoop env cl (pre ++ rest) posts h
        = match executeLoop env cl pre posts h with
          | (.error o, ev) => (.error o, ev)
          | (.ok posts1, ev) =>
            ((executeLoop env cl rest posts1 (h ++ ev)).1,
             ev ++ (executeLoop env cl rest posts1 (h ++ ev)).2) := by
  intro pre
  induction pre with
  | nil =>
    intro rest posts h
    simp [executeLoop]
  | cons v pre ih =>
    intro rest posts h
    rw [List.cons_append, executeLoop, executeLoop]
    rcases cl.fetchIssues env h v.Condition with ⟨res, ev⟩
    cases res with
    | error e => rfl
    | ok issues =>
      simp only []
      cases cl.buildPost issues v.Name with
      | none => rfl
      | some p =>
        simp only []
        split
        · rw [ih]
          rcases executeLoop env cl pre (posts ++ [p]) (h ++ ev) with ⟨r, ev2⟩
          cases r <;> simp
        · rw [ih]
          rcases executeLoop env cl pre posts (h ++ ev ++ cl.post env (h ++ ev) p) with ⟨r, ev2⟩
          cases r <;> simp

/-- A turn of the loop that is followed by further turns: the fetch went
through and the message was built. -/
theorem executeLoop_cons_ok (env : Env) (cl : Client) (v : SearchCondition)
    (rest : List SearchCondition) (posts posts1 : List String) (h evs : List Event)
    (hok : executeLoop env cl (v :: rest) posts h = (.ok posts1, evs)) :
    ∃ s : Step, Step.of cl v s ∧
      cl.fetchIssues env h v.Condition = (.ok s.issues, [s.fetched cl]) ∧
      (cl.isSinglePost = true →
        ∃ evs1, executeLoop env cl rest (posts ++ [s.message]) (h ++ [s.fetched cl])
            = (.ok posts1, evs1) ∧ evs = s.fetched cl :: evs1) ∧
      (cl.isSinglePost = false →
        ∃ evs1, executeLoop env cl rest posts
            (h ++ [s.fetched cl] ++ cl.post env (h ++ [s.fetched cl]) s.message)
            = (.ok posts1, evs1) ∧
          evs = s.fetched cl :: (cl.post env (h ++ [s.fetched cl]) s.message ++ evs1)) := by
  rw [executeLoop] at hok
  cases hc : v.Condition with
  | none =>
    rw [hc] at hok
    simp [Client.fetchIssues] at hok
  | some c =>
    rw [hc] at hok
    unfold Client.fetchIssues at hok ⊢
    simp only [] at hok ⊢
    cases hr : (env.GetIssues h cl.backlogClient (withDueDate cl c)).2 with
    | some e =>
      rw [hr] at hok
      simp at hok
    | none =>
      rw [hr] at hok
      simp only [] at hok
      cases hb : cl.buildPost (env.GetIssues h cl.backlogClient (withDueDate cl c)).1 v.Name with
      | none =>
        rw [hb] at hok
        simp at hok
      | some p =>
        rw [hb] at hok
        simp only [] at hok
        refine ⟨⟨withDueDate cl c, (env.GetIssues h cl.backlogClient (withDueDate cl c)).1, p⟩,
          ⟨by rw [hc]; rfl, hb⟩, rfl, ?_, ?_⟩
        · intro hs
          rw [if_pos hs] at hok
          refine ⟨_, Prod.ext ?_ rfl, ?_⟩
          · exact (Prod.ext_iff.mp hok).1
          · exact ((Prod.ext_iff.mp hok).2).symm
        · intro hs
          rw [if_neg (by rw [hs]; exact Bool.false_ne_true)] at hok
          refine ⟨_, Prod.ext ?_ rfl, ?_⟩
          · exact (Prod.ext_iff.mp hok).1
          · have := ((Prod.ext_iff.mp hok).2).symm
            simpa using this

theorem executeLoop_ok_single (env : Env) (cl : Client) (hs : cl.isSinglePost = true) :
    ∀ (conds : List SearchCondition) (posts posts1 : List String) (h evs : List Event),
      executeLoop env cl conds posts h = (.ok posts1, evs) →
      ∃ steps : List Step, List.Forall₂ (Step.of cl) conds steps ∧
        posts1 = posts ++ steps.map Step.message ∧ evs = steps.map (Step.fetched cl) := by
  intro conds
  induction conds with
  | nil =>
    intro posts posts1 h evs hok
    simp [executeLoop] at hok
    exact ⟨[], List.Forall₂.nil, by simp [hok.1], by simp [hok.2]⟩
  | cons v rest ih =>
    intro posts posts1 h evs hok
    obtain ⟨s, hof, -, h1, -⟩ := executeLoop_cons_ok env cl v rest posts posts1 h evs hok
    obtain ⟨evs1, hrest, hevs⟩ := h1 hs
    obtain ⟨steps, hsteps, hp, he⟩ := ih _ _ _ _ hrest
    exact ⟨s :: steps, List.Forall₂.cons hof hsteps, by simp [hp], by simp [hevs, he]⟩

theorem executeLoop_ok_perCondition (env : Env) (cl : Client)
    (hs : cl.isSinglePost = false) :
    ∀ (conds : List SearchCondition) (posts posts1 : List String) (h evs : List Event),
      executeLoop env cl conds posts h = (.ok posts1, evs) →
      ∃ steps : List (Step × List Event),
        List.Forall₂ (fun v sb => Step.of cl v sb.1 ∧ isDispatch cl sb.1.message sb.2)
          conds steps ∧
        posts1 = posts ∧ evs = (steps.map (fun sb => sb.1.fetched cl :: sb.2)).flatten := by
  intro conds
  induction conds with
  | nil =>
    intro posts posts1 h evs hok
    simp [executeLoop] at hok
    exact ⟨[], List.Forall₂.nil, hok.1.symm, by simp [hok.2]⟩
  | cons v rest ih =>
    intro posts posts1 h evs hok
    obtain ⟨s, hof, -, -, h2⟩ := executeLoop_cons_ok env cl v rest posts posts1 h evs hok
    obtain ⟨evs1, hrest, hevs⟩ := h2 hs
    obtain ⟨steps, hsteps, hp, he⟩ := ih _ _ _ _ hrest
    exact ⟨(s, cl.post env (h ++ [s.fetched cl]) s.message) :: steps,
      List.Forall₂.cons ⟨hof, post_isDispatch env _ cl s.message⟩ hsteps, hp,
      by simp [hevs, he]⟩

/-- C11. When the loop of `execute` has gone through the conditions before the
k-th and the fetch of the k-th fails, with `ErrNoCondition` for a nil filter
and no query sent, or with the error of the ticket backend, then `execute`
returns that error and adds no event after the failed fetch: no later
condition is fetched.  In combined mode the events before it are the queries
of the earlier conditions only, so nothing is dispatched; in per-condition
mode they are, for each earlier condition in order, its query followed by one
dispatch of its message. -/
theorem execute_fetch_error (env : Env) (h : List Event) (cl : Client)
    (pre post : List SearchCondition) (v : SearchCondition) (e : Error)
    (posts : List String) (evs : List Event)
    (hc : cl.searchConditions.getD [] = pre ++ v :: post)
    (hpre : executeLoop env cl pre [] h = (.ok posts, evs))
    (hk : (cl.fetchIssues env (h ++ evs) v.Condition).1 = .error e) :
    cl.execute env h
      = (.returned (some e), evs ++ (cl.fetchIssues env (h ++ evs) v.Condition).2) ∧
    ((v.Condition = none ∧ e = ErrNoCondition ∧
        (cl.fetchIssues env (h ++ evs) v.Condition).2 = []) ∨
      (∃ c issues, v.Condition = some c ∧
        (cl.fetchIssues env (h ++ evs) v.Condition).2
          = [Event.getIssues cl.backlogClient (withDueDate cl c) issues (some e)])) ∧
    (cl.isSinglePost = true →
      ∃ steps : List Step, List.Forall₂ (Step.of cl) pre steps ∧
        evs = steps.map (Step.fetched cl)) ∧
    (cl.isSinglePost = false →
      ∃ steps : List (Step × List Event),
        List.Forall₂ (fun w sb => Step.of cl w sb.1 ∧ isDispatch cl sb.1.message sb.2)
          pre steps ∧
        evs = (steps.map (fun sb => sb.1.fetched cl :: sb.2)).flatten) := by
  refine ⟨?_, ?_, ?_, ?_⟩
  · unfold Client.execute
    rw [hc, executeLoop_append, hpre]
    simp only []
    rw [executeLoop]
    rcases hf : cl.fetchIssues env (h ++ evs) v.Condition with ⟨res, ev⟩
    rw [hf] at hk
    simp only [] at hk
    rw [hk]
  · cases hcond : v.Condition with
    | none =>
      rw [hcond] at hk
      left
      simp [Client.fetchIssues] at hk ⊢
      exact hk.symm
    | some c =>
      rw [hcond] at hk
      right
      refine ⟨c, (env.GetIssues (h ++ evs) cl.backlogClient (withDueDate cl c)).1, rfl, ?_⟩
      unfold Client.fetchIssues at hk ⊢
      simp only [] at hk ⊢
      cases hr : (env.GetIssues (h ++ evs) cl.backlogClient (withDueDate cl c)).2 with
      | none =>
        rw [hr] at hk
        cases hk
      | some e1 =>
        rw [hr] at hk
        simp only [] at hk
        cases hk
        rfl
  · intro hs
    obtain ⟨steps, hsteps, -, he⟩ := executeLoop_ok_single env cl hs pre [] posts h evs hpre
    exact ⟨steps, hsteps, he⟩
  · intro hs
    obtain ⟨steps, hsteps, -, he⟩ := executeLoop_ok_perCondition env cl hs pre [] posts h evs hpre
    exact ⟨steps, hsteps, he⟩



/-- C11, in per-condition mode with a second condition that has no filter (the
first message has been dispatched, the third condition is never fetched), and
in combined mode with a ticket backend that fails on the second query (nothing
is dispatched). -/
theorem execute_fetch_error_witness :
    (secondWithoutFilter false true).searchConditions.getD []
      = [{ Name := "first", Condition := some emptyFilter }]
          ++ { Name := "second", Condition := none }
          :: [{ Name := "third", Condition := some emptyFilter }] ∧
    (secondWithoutFilter false true).execute quietEnv []
      = (.returned (some ErrNoCondition),
         [Event.getIssues { apiKey := "dummy", baseUrl := "https://backlog.example.com" }
            { emptyFilter with DueDateUntil := some "2000-01-04" } [] none,
          Event.stdout "first\n```\n```\n"] ++ []) ∧
    (twoConditions true true).execute failingLaterEnv []
      = (.returned (some (Error.other "backlog: 503")),
         [Event.getIssues { apiKey := "dummy", baseUrl := "https://backlog.example.com" }
            { emptyFilter with DueDateUntil := some "2000-01-04" } [] none] ++
         [Event.getIssues { apiKey := "dummy", baseUrl := "https://backlog.example.com" }
            { emptyFilter with DueDateUntil := some "2000-01-04" } []
            (some (Error.other "backlog: 503"))]) :=
  ⟨rfl,
   (execute_fetch_error quietEnv [] (secondWithoutFilter false true)
      [{ Name := "first", Condition := some emptyFilter }]
      [{ Name := "third", Condition := some emptyFilter }]
      { Name := "second", Condition := none } ErrNoCondition []
      [Event.getIssues { apiKey := "dummy", baseUrl := "https://backlog.example.com" }
         { emptyFilter with DueDateUntil := some "2000-01-04" } [] none,
       Event.stdout "first\n```\n```\n"]
      rfl (by decide) (by decide)).1,
   (execute_fetch_error failingLaterEnv [] (twoConditions true true)
      [{ Name := "first", Condition := some emptyFilter }] []
      { Name := "second", Condition := some emptyFilter } (Error.other "backlog: 503")
      ["first\n```\n```"]
      [Event.getIssues { apiKey := "dummy", baseUrl := "https://backlog.example.com" }
         { emptyFilter with DueDateUntil := some "2000-01-04" } [] none]
      rfl (by decide) (by decide)).1⟩


theorem execute_error_inv_loop (env : Env) (cl : Client) (e : Error) :
    ∀ (conds : List SearchCondition) (posts : List String) (h evs : List Event),
      executeLoop env cl conds posts h = (.error (.returned (some e)), evs) →
      ∃ (pre post : List SearchCondition) (v : SearchCondition) (posts1 : List String)
        (evs0 : List Event),
        conds = pre ++ v :: post ∧ executeLoop env cl pre posts h = (.ok posts1, evs0) ∧
        (cl.fetchIssues env (h ++ evs0) v.Condition).1 = .error e ∧
        evs = evs0 ++ (cl.fetchIssues env (h ++ evs0) v.Condition).2 := by
  intro conds
  induction conds with
  | nil =>
    intro posts h evs hl
    simp [executeLoop] at hl
  | cons v rest ih =>
    intro posts h evs hl
    rw [executeLoop] at hl
    rcases hf : cl.fetchIssues env h v.Condition with ⟨res, ev⟩
    rw [hf] at hl
    cases res with
    | error e1 =>
      simp only [] at hl
      have h1 := (Prod.ext_iff.mp hl).1
      have h2 := (Prod.ext_iff.mp hl).2
      simp only [] at h1 h2
      cases h1
      refine ⟨[], rest, v, posts, [], rfl, by simp [executeLoop], ?_, ?_⟩
      · simp [hf]
      · simp [hf, h2]
    | ok issues =>
      simp only [] at hl
      cases hb : cl.buildPost issues v.Name with
      | none =>
        rw [hb] at hl
        simp at hl
      | some p =>
        rw [hb] at hl
        simp only [] at hl
        by_cases hs : cl.isSinglePost = true
        · rw [if_pos hs] at hl
          have h1 := (Prod.ext_iff.mp hl).1
          have h2 := (Prod.ext_iff.mp hl).2
          simp only [] at h1 h2
          obtain ⟨pre, post, w, posts1, evs0, hc, hpre, hk, hev⟩ :=
            ih (posts ++ [p]) (h ++ ev) _ (Prod.ext h1 rfl)
          refine ⟨v :: pre, post, w, posts1, ev ++ evs0, by rw [hc]; rfl, ?_, ?_, ?_⟩
          · rw [executeLoop, hf]
            simp only [hb, hs, if_true, hpre]
          · rw [← List.append_assoc]
            exact hk
          · rw [show h ++ (ev ++ evs0) = h ++ ev ++ evs0 from (List.append_assoc _ _ _).symm]
            exact h2.symm.trans ((congrArg (fun x => ev ++ x) hev).trans
              (List.append_assoc _ _ _).symm)
        · rw [if_neg hs] at hl
          have h1 := (Prod.ext_iff.mp hl).1
          have h2 := (Prod.ext_iff.mp hl).2
          simp only [] at h1 h2
          obtain ⟨pre, post, w, posts1, evs0, hc, hpre, hk, hev⟩ :=
            ih posts (h ++ ev ++ cl.post env (h ++ ev) p) _ (Prod.ext h1 rfl)
          refine ⟨v :: pre, post, w, posts1, ev ++ cl.post env (h ++ ev) p ++ evs0,
            by rw [hc]; rfl, ?_, ?_, ?_⟩
          · rw [executeLoop, hf]
            simp only [hb]
            rw [if_neg hs, hpre]
          · simp only [← List.append_assoc]
            exact hk
          · rw [show h ++ (ev ++ cl.post env (h ++ ev) p ++ evs0)
                = h ++ ev ++ cl.post env (h ++ ev) p ++ evs0 by simp only [List.append_assoc]]
            exact h2.symm.trans ((congrArg (fun x => ev ++ cl.post env (h ++ ev) p ++ x) hev).trans
              (List.append_assoc _ _ _).symm)

/-- When `execute` returns an error, it is the error of a fetch that failed
after the conditions before it went through. -/
theorem execute_error_inv (env : Env) (h : List Event) (cl : Client) (e : Error)
    (he : (cl.execute env h).1 = .returned (some e)) :
    ∃ (pre post : List SearchCondition) (v : SearchCondition) (posts : List String)
      (evs : List Event),
      cl.searchConditions.getD [] = pre ++ v :: post ∧
      executeLoop env cl pre [] h = (.ok posts, evs) ∧
      (cl.fetchIssues env (h ++ evs) v.Condition).1 = .error e := by
  unfold Client.execute at he
  rcases hl : executeLoop env cl (cl.searchConditions.getD []) [] h with ⟨res, ev⟩
  rw [hl] at he
  cases res with
  | ok posts =>
    simp only [] at he
    split at he <;> cases he
  | error o =>
    simp only [] at he
    rw [he] at hl
    obtain ⟨pre, post, v, posts1, evs0, hc, hpre, hk, -⟩ :=
      execute_error_inv_loop env cl e _ _ _ _ hl
    exact ⟨pre, post, v, posts1, evs0, hc, hpre, hk⟩


theorem writtenTexts_append (a b : List Event) :
    writtenTexts (a ++ b) = writtenTexts a ++ writtenTexts b := by
  unfold writtenTexts
  rw [List.filterMap_append]

theorem postedTexts_append (a b : List Event) :
    postedTexts (a ++ b) = postedTexts a ++ postedTexts b := by
  unfold postedTexts
  rw [List.filterMap_append]

theorem fetchIssues_events (env : Env) (h : List Event) (cl : Client)
    (c : Option GetIssuesOptions) :
    writtenTexts (cl.fetchIssues env h c).2 = [] ∧ postedTexts (cl.fetchIssues env h c).2 = [] ∧
      (cl.fetchIssues env h c).2.filter Event.isQuery = (cl.fetchIssues env h c).2 ∧
      ∀ url p body err, Event.postForm url p body err ∉ (cl.fetchIssues env h c).2 := by
  cases c with
  | none => simp [Client.fetchIssues, writtenTexts, postedTexts]
  | some c =>
    unfold Client.fetchIssues
    simp only []
    split <;> simp [writtenTexts, postedTexts, Event.isQuery]

theorem fetchIssues_wet (env : Env) (hq : ticketBackendOnly env) (h1 h2 : List Event)
    (cl : Client) (c : Option GetIssuesOptions)
    (hh : h1.filter Event.isQuery = h2.filter Event.isQuery) :
    cl.wet.fetchIssues env h2 c = cl.fetchIssues env h1 c := by
  cases c with
  | none => rfl
  | some c =>
    unfold Client.fetchIssues
    simp only []
    have e1 : withDueDate cl.wet c = withDueDate cl c := rfl
    have e2 : cl.wet.backlogClient = cl.backlogClient := rfl
    rw [e1, e2, hq h2 h1 cl.backlogClient (withDueDate cl c) hh.symm]

theorem post_dry (env : Env) (h : List Event) (cl : Client) (p : String)
    (hdry : cl.dryRun = true) : cl.post env h p = [Event.stdout (p ++ "\n")] := by
  unfold Client.post
  rw [if_pos hdry]

theorem post_wet (env : Env) (h : List Event) (cl : Client) (p : String) :
    postedTexts (cl.wet.post env h p) = [p] ∧
      (cl.wet.post env h p).filter Event.isQuery = [] := by
  unfold Client.post slackClient.post
  have hw : cl.wet.dryRun = false := rfl
  rw [hw]
  simp only [Bool.false_eq_true, if_false]
  split <;> simp [postedTexts, Event.isQuery]

theorem dryRun_loop (env : Env) (cl : Client) (hdry : cl.dryRun = true)
    (hq : ticketBackendOnly env) :
    ∀ (conds : List SearchCondition) (posts : List String) (h1 h2 : List Event),
      h1.filter Event.isQuery = h2.filter Event.isQuery →
      (executeLoop env cl conds posts h1).1 = (executeLoop env cl.wet conds posts h2).1 ∧
      (executeLoop env cl conds posts h1).2.filter Event.isQuery
        = (executeLoop env cl.wet conds posts h2).2.filter Event.isQuery ∧
      writtenTexts (executeLoop env cl conds posts h1).2
        = (postedTexts (executeLoop env cl.wet conds posts h2).2).map (fun p => p ++ "\n") := by
  intro conds
  induction conds with
  | nil =>
    intro posts h1 h2 _
    simp [executeLoop, writtenTexts, postedTexts]
  | cons v rest ih =>
    intro posts h1 h2 hh
    rw [executeLoop, executeLoop, fetchIssues_wet env hq h1 h2 cl v.Condition hh]
    obtain ⟨hw, hp, hqf, -⟩ := fetchIssues_events env h1 cl v.Condition
    rcases hf : cl.fetchIssues env h1 v.Condition with ⟨res, ev⟩
    rw [hf] at hw hp hqf
    simp only [] at hw hp hqf
    cases res with
    | error e => simp [hw, hp]
    | ok issues =>
      simp only []
      have hb : cl.wet.buildPost issues v.Name = cl.buildPost issues v.Name := rfl
      rw [hb]
      cases cl.buildPost issues v.Name with
      | none => simp [hw, hp]
      | some p =>
        simp only []
        have hsw : cl.wet.isSinglePost = cl.isSinglePost := rfl
        rw [hsw]
        by_cases hs : cl.isSinglePost = true
        · rw [if_pos hs, if_pos hs]
          simp only []
          obtain ⟨r1, r2, r3⟩ := ih (posts ++ [p]) (h1 ++ ev) (h2 ++ ev)
            (by rw [List.filter_append, List.filter_append, hh])
          refine ⟨r1, ?_, ?_⟩
          · rw [List.filter_append, List.filter_append, r2]
          · rw [writtenTexts_append, postedTexts_append, hw, hp, r3]
            simp
        · rw [if_neg hs, if_neg hs]
          simp only []
          obtain ⟨pw1, pw2⟩ := post_wet env (h2 ++ ev) cl p
          have pd := post_dry env (h1 ++ ev) cl p hdry
          obtain ⟨r1, r2, r3⟩ := ih posts (h1 ++ ev ++ cl.post env (h1 ++ ev) p)
            (h2 ++ ev ++ cl.wet.post env (h2 ++ ev) p)
            (by
              rw [List.filter_append, List.filter_append, List.filter_append,
                List.filter_append, hh, pw2, pd]
              simp [Event.isQuery])
          refine ⟨r1, ?_, ?_⟩
          · rw [List.filter_append, List.filter_append, List.filter_append,
              List.filter_append, r2, pw2, pd]
            simp [Event.isQuery]
          · rw [writtenTexts_append, writtenTexts_append, postedTexts_append,
              postedTexts_append, hw, hp, r3, pw1, pd]
            simp [writtenTexts]

theorem dryRun_no_postForm_loop (env : Env) (cl : Client) (hdry : cl.dryRun = true) :
    ∀ (conds : List SearchCondition) (posts : List String) (h : List Event)
      (url : String) (params : slackParams) (body : String) (err : Option Error),
      Event.postForm url params body err ∉ (executeLoop env cl conds posts h).2 := by
  intro conds
  induction conds with
  | nil =>
    intro posts h url params body err
    simp [executeLoop]
  | cons v rest ih =>
    intro posts h url params body err hmem
    rw [executeLoop] at hmem
    have hfe := (fetchIssues_events env h cl v.Condition).2.2.2 url params body err
    rcases hf : cl.fetchIssues env h v.Condition with ⟨res, ev⟩
    rw [hf] at hmem hfe
    simp only [] at hfe
    cases res with
    | error e => exact hfe hmem
    | ok issues =>
      simp only [] at hmem
      cases hb : cl.buildPost issues v.Name with
      | none =>
        rw [hb] at hmem
        exact hfe hmem
      | some p =>
        rw [hb] at hmem
        simp only [] at hmem
        split at hmem
        · rcases List.mem_append.mp hmem with hm | hm
          · exact hfe hm
          · exact ih _ _ _ _ _ _ hm
        · rcases List.mem_append.mp hmem with hm | hm
          · rcases List.mem_append.mp hm with hm | hm
            · exact hfe hm
            · rw [post_dry env _ cl p hdry] at hm
              simp at hm
          · exact ih _ _ _ _ _ _ hm


/-- C17. In a dry run no form is posted to the chat webhook, whatever the
configuration and the collaborators do, and an error `execute` returns is the
error of a failed fetch, never of a write.  With a ticket backend whose
answers depend on the queries it has had, the dry run ends as the run with
`dryRun` false does, and the texts it writes to standard output are, in order,
the messages that run posts to the webhook, each followed by a newline. -/
theorem dryRun_execute (env : Env) (h : List Event) (cl : Client) (hdry : cl.dryRun = true) :
    (∀ url params body err, Event.postForm url params body err ∉ (cl.execute env h).2) ∧
    (∀ e, (cl.execute env h).1 = .returned (some e) →
      ∃ (pre post : List SearchCondition) (v : SearchCondition) (posts : List String)
        (evs : List Event),
        cl.searchConditions.getD [] = pre ++ v :: post ∧
        executeLoop env cl pre [] h = (.ok posts, evs) ∧
        (cl.fetchIssues env (h ++ evs) v.Condition).1 = .error e) ∧
    (ticketBackendOnly env →
      (cl.execute env h).1 = (cl.wet.execute env h).1 ∧
      writtenTexts (cl.execute env h).2
        = (postedTexts (cl.wet.execute env h).2).map (fun p => p ++ "\n")) := by
  refine ⟨?_, fun e he => execute_error_inv env h cl e he, ?_⟩
  · intro url params body err hmem
    unfold Client.execute at hmem
    have hl := dryRun_no_postForm_loop env cl hdry (cl.searchConditions.getD []) [] h
      url params body err
    rcases hloop : executeLoop env cl (cl.searchConditions.getD []) [] h with ⟨res, ev⟩
    rw [hloop] at hmem hl
    simp only [] at hl
    cases res with
    | error o => exact hl hmem
    | ok posts =>
      simp only [] at hmem
      split at hmem
      · rcases List.mem_append.mp hmem with hm | hm
        · exact hl hm
        · rw [post_dry env _ cl _ hdry] at hm
          simp at hm
      · exact hl hmem
  · intro hq
    obtain ⟨r1, r2, r3⟩ := dryRun_loop env cl hdry hq (cl.searchConditions.getD []) [] h h rfl
    unfold Client.execute
    have hc : cl.wet.searchConditions = cl.searchConditions := rfl
    have hsw : cl.wet.isSinglePost = cl.isSinglePost := rfl
    rw [hc, hsw]
    rcases hd : executeLoop env cl (cl.searchConditions.getD []) [] h with ⟨resd, evd⟩
    rcases hw : executeLoop env cl.wet (cl.searchConditions.getD []) [] h with ⟨resw, evw⟩
    rw [hd, hw] at r1 r2 r3
    simp only [] at r1 r2 r3
    subst r1
    cases resd with
    | error o => exact ⟨rfl, r3⟩
    | ok posts =>
      simp only []
      by_cases hs : cl.isSinglePost = true
      · rw [if_pos hs, if_pos hs]
        refine ⟨rfl, ?_⟩
        simp only []
        rw [writtenTexts_append, postedTexts_append, r3, post_dry env _ cl _ hdry,
          (post_wet env _ cl _).1]
        simp [writtenTexts]
      · rw [if_neg hs, if_neg hs]
        exact ⟨rfl, r3⟩

/-- C17, at a dry run of two conditions in per-condition mode: the two
messages go to standard output, the same two that the run with `dryRun` false
posts to the chat webhook. -/
theorem dryRun_execute_witness :
    (twoConditions false true).dryRun = true ∧ ticketBackendOnly quietEnv ∧
    writtenTexts ((twoConditions false true).execute quietEnv []).2
      = ["first\n```\n```\n", "second\n```\n```\n"] ∧
    postedTexts ((twoConditions false true).wet.execute quietEnv []).2
      = ["first\n```\n```", "second\n```\n```"] ∧
    ((twoConditions false true).execute quietEnv []).1
        = ((twoConditions false true).wet.execute quietEnv []).1 ∧
    writtenTexts ((twoConditions false true).execute quietEnv []).2
      = (postedTexts ((twoConditions false true).wet.execute quietEnv []).2).map
          (fun p => p ++ "\n") :=
  ⟨rfl, fun _ _ _ _ _ => rfl, by decide, by decide,
   (dryRun_execute quietEnv [] (twoConditions false true) rfl).2.2 (fun _ _ _ _ _ => rfl)⟩

/-- The condition on the ticket backend in C17 is needed: against a backend
that answers differently once a form has been posted, the dry run writes a
second message that the run with `dryRun` false does not post. -/
theorem dryRun_nosy_backend :
    writtenTexts ((twoConditions false true).execute nosyEnv []).2
      = ["first\n```\n```\n", "second\n```\n```\n"] ∧
    postedTexts ((twoConditions false true).wet.execute nosyEnv []).2
      = ["first\n```\n```",
         "second\n```\nhttps://backlog.example.com/view/PRJ-7\nwrite the report\nHanako\n\n```"] := by
  decide

end Backlogslackify
